import Mathlib

/-!
Shallow embedding of the pane / navigation-history / close-workflow core of
`crates/workspace/src/pane.rs`, together with theorems settling the frozen
claims about its specification.

Modelling conventions:
* `ItemHandle` trait objects are modelled by the `Item` structure carrying the
  identity and the capability flags the pane code reads (`id`,
  `project_entry_ids`, `is_singleton`, `is_dirty`, `has_conflict`, `can_save`,
  `project_path`), plus the data needed for externally supplied capabilities
  (navigation payload, tab path).
* `usize` arithmetic uses natural numbers with explicit wrap-around modulo
  `2 ^ 64` at the one place the source can overflow (the `ActivateLastItem`
  handler computing `items.len() - 1`).
* asynchronous prompts are inputs: an oracle supplies the user's answers.
-/

namespace Zed

abbrev ItemId := Nat
abbrev EntryId := Nat
abbrev PathId := Nat

/-- The capabilities of an open item that `pane.rs` reads.  `payload` is the
opaque navigation payload the item records when it is deactivated, and
`tabPath` the path components backing its `tab_description` (see the
spec-modelled definitions below); both belong to item implementations outside
this crate. -/
structure Item where
  id : ItemId
  entryIds : List EntryId
  isSingleton : Bool
  isDirty : Bool
  hasConflict : Bool
  canSave : Bool
  projectPath : Option PathId
  payload : Option Nat
  tabPath : Option (List String)
deriving Repr, DecidableEq

/-- `NavigationMode` from `pane.rs`. -/
inductive NavigationMode
  | normal
  | goingBack
  | goingForward
  | closingItem
  | reopeningClosedItem
  | disabled
deriving Repr, DecidableEq

/-- `NavigationEntry`: weak item reference (kept as the id; liveness is
whether the pane still holds an item with this id) plus optional payload. -/
structure NavigationEntry where
  item : ItemId
  data : Option Nat
deriving Repr, DecidableEq

/-- `NavHistory`: mode, the three bounded stacks (list head = front = oldest,
list last = back = newest) and the `paths_by_item` side table. -/
structure NavHistory where
  mode : NavigationMode
  backwardStack : List NavigationEntry
  forwardStack : List NavigationEntry
  closedStack : List NavigationEntry
  pathsByItem : List (ItemId × PathId)
deriving Repr, DecidableEq

def MAX_NAVIGATION_HISTORY_LEN : Nat := 1024

/-- The eviction-then-append step shared by every arm of `NavHistory::push`:
`if stack.len() >= MAX_NAVIGATION_HISTORY_LEN { stack.pop_front(); }`
followed by `stack.push_back(entry)`. -/
def pushEntry (stack : List NavigationEntry) (e : NavigationEntry) : List NavigationEntry :=
  (if MAX_NAVIGATION_HISTORY_LEN ≤ stack.length then stack.tail else stack) ++ [e]

/-- `NavHistory::push`, branching on the current mode exactly as the source. -/
def NavHistory.push (h : NavHistory) (data : Option Nat) (item : ItemId) : NavHistory :=
  match h.mode with
  | .disabled => h
  | .normal | .reopeningClosedItem =>
      { h with backwardStack := pushEntry h.backwardStack ⟨item, data⟩, forwardStack := [] }
  | .goingBack =>
      { h with forwardStack := pushEntry h.forwardStack ⟨item, data⟩ }
  | .goingForward =>
      { h with backwardStack := pushEntry h.backwardStack ⟨item, data⟩ }
  | .closingItem =>
      { h with closedStack := pushEntry h.closedStack ⟨item, data⟩ }

/-- `NavHistory::pop`: Normal, Disabled and ClosingItem are invalid pop modes;
the others `pop_back` from their stack. Returns the popped entry and the
updated history. -/
def NavHistory.pop (h : NavHistory) (mode : NavigationMode) :
    Option NavigationEntry × NavHistory :=
  match mode with
  | .normal | .disabled | .closingItem => (none, h)
  | .goingBack =>
      (h.backwardStack.getLast?, { h with backwardStack := h.backwardStack.dropLast })
  | .goingForward =>
      (h.forwardStack.getLast?, { h with forwardStack := h.forwardStack.dropLast })
  | .reopeningClosedItem =>
      (h.closedStack.getLast?, { h with closedStack := h.closedStack.dropLast })

def NavHistory.setMode (h : NavHistory) (m : NavigationMode) : NavHistory :=
  { h with mode := m }

def NavHistory.disable (h : NavHistory) : NavHistory := h.setMode .disabled

def NavHistory.enable (h : NavHistory) : NavHistory := h.setMode .normal

/-- The history a fresh pane is created with (`Pane::new`). -/
def initialHistory : NavHistory :=
  { mode := .normal, backwardStack := [], forwardStack := [], closedStack := [], pathsByItem := [] }

/-- The value `usize::MAX + 1`, for explicit wrap-around of `usize`
arithmetic. -/
def USIZE_WRAP : Nat := 2 ^ 64

/-- The pane state that the claims are about: the ordered item list, the
active-item index, the shared navigation history and the autoscroll flag set
by `activate_item`.  (Toolbar, split menu and the `is_active` visual flag are
presentation-only and carry no behaviour the claims mention.) -/
structure Pane where
  items : List Item
  activeItemIndex : Nat
  navHistory : NavHistory
  autoscroll : Bool
deriving Repr, DecidableEq

/-- `Pane::index_for_item` specialised to an id: position of the first item
with this id. -/
def Pane.indexForItem (p : Pane) (id : ItemId) : Option Nat :=
  p.items.findIdx? (fun i => i.id == id)

/-- Modelled from the spec: the item-side effect of a deactivation
notification.  Item implementations live outside this crate; per the spec,
"NavigationHistory entries are created on every activation change and on
every close" and the traversal algorithm relies on the departed item pushing
an entry (its stored navigation payload) into the shared history.  The push
itself is `NavHistory::push` from the source. -/
def deactivateItem (h : NavHistory) (it : Item) : NavHistory :=
  h.push it.payload it.id

/-- `Pane::activate_item(index, activate_pane, focus_item,
move_after_current_active)`.  `_activatePane` and `_focusItem` only emit
focus/activation events in the source and do not touch the modelled state.
The body is a direct transcription: the reorder step (remove then reinsert
after the shifted active position), the `mem::replace` of the active index,
and the conditional deactivation notification of the previous item. -/
def Pane.activateItem (p : Pane) (index : Nat) (_activatePane _focusItem : Bool)
    (moveAfterCurrentActive : Bool) : Pane :=
  if hix : index < p.items.length then
    let st :=
      if moveAfterCurrentActive ∧ p.activeItemIndex ≠ index
          ∧ p.activeItemIndex < p.items.length then
        let paneToActivate := p.items.get ⟨index, hix⟩
        let items := p.items.eraseIdx index
        if p.activeItemIndex < index then
          (List.insertIdx (p.activeItemIndex + 1) paneToActivate items,
            p.activeItemIndex + 1, p.activeItemIndex)
        else if p.activeItemIndex < items.length + 1 then
          (List.insertIdx p.activeItemIndex paneToActivate items,
            p.activeItemIndex, p.activeItemIndex - 1)
        else
          (List.insertIdx index paneToActivate items, index, p.activeItemIndex)
      else (p.items, index, p.activeItemIndex)
    let items := st.1
    let newIndex := st.2.1
    let prevActive := st.2.2
    let p1 : Pane := { p with items := items, activeItemIndex := newIndex }
    let p2 : Pane :=
      if prevActive ≠ newIndex ∨ p1.navHistory.mode = .goingBack
          ∨ p1.navHistory.mode = .goingForward then
        match items[prevActive]? with
        | some prevItem => { p1 with navHistory := deactivateItem p1.navHistory prevItem }
        | none => p1
      else p1
    { p2 with autoscroll := true }
  else p

/-- `Pane::activate_prev_item`: move back one index with wrap-around. -/
def Pane.activatePrevItem (p : Pane) : Pane :=
  let index :=
    if 0 < p.activeItemIndex then p.activeItemIndex - 1
    else if 0 < p.items.length then p.items.length - 1
    else p.activeItemIndex
  p.activateItem index true true false

/-- `Pane::activate_next_item`: move forward one index with wrap-around. -/
def Pane.activateNextItem (p : Pane) : Pane :=
  let index :=
    if p.activeItemIndex + 1 < p.items.length then p.activeItemIndex + 1 else 0
  p.activateItem index true true false

/-- The `ActivateLastItem` action handler from `init`:
`pane.activate_item(pane.items.len() - 1, true, true, false, cx)`.  The
subtraction is `usize` arithmetic, so it is taken modulo `2 ^ 64` (on an
empty pane it wraps to `usize::MAX`). -/
def Pane.activateLastItem (p : Pane) : Pane :=
  p.activateItem ((p.items.length + (USIZE_WRAP - 1)) % USIZE_WRAP) true true false

/-- The `ActivateItem(ix)` action handler from `init`:
`pane.activate_item(action.0, true, true, false, cx)`. -/
def Pane.activateItemAction (p : Pane) (ix : Nat) : Pane :=
  p.activateItem ix true true false

/-- `Pane::add_item`: activate in place if the id is already present, else
insert right after the active item (or at the end, temporarily parking the
active index at `usize::MAX`) and activate the inserted index. -/
def Pane.addItem (p : Pane) (item : Item) (activatePane focusItem : Bool) : Pane :=
  match p.items.findIdx? (fun i => i.id == item.id) with
  | some itemIx => p.activateItem itemIx activatePane focusItem true
  | none =>
    let st :=
      if p.activeItemIndex < p.items.length then (p.activeItemIndex + 1, p)
      else (p.items.length, { p with activeItemIndex := USIZE_WRAP - 1 })
    let itemIx := st.1
    let p1 := st.2
    let p2 : Pane := { p1 with items := List.insertIdx itemIx item p1.items }
    p2.activateItem itemIx activatePane focusItem false

/-- The linear scan at the top of `Pane::open_item`: the first `(ix, item)`
whose `project_path` is some and whose `project_entry_ids` slice equals
exactly `[project_entry_id]`. -/
def Pane.existingItemForEntry (p : Pane) (projectEntryId : EntryId) : Option (Nat × Item) :=
  p.items.enum.find? (fun e =>
    e.2.projectPath.isSome && (e.2.entryIds == [projectEntryId]))

/-- `Pane::open_item`: reuse the first open item backed exactly by this
project entry (activating it with `move_after_current_active = true`),
otherwise build the new item and `add_item` it.  Returns the updated pane and
the item the caller receives. -/
def Pane.openItem (p : Pane) (projectEntryId : EntryId) (focusItem : Bool)
    (buildItem : Item) : Pane × Item :=
  match p.existingItemForEntry projectEntryId with
  | some e => (p.activateItem e.1 true focusItem true, e.2)
  | none => (p.addItem buildItem true focusItem, buildItem)

/-- How the synchronous part of `Pane::navigate_history` ends: an activation
actually navigated, the history stack ran out, or a stale entry with a
remembered project path must be reloaded asynchronously. -/
inductive TravOutcome
  | navigated
  | exhausted
  | reopen (path : PathId) (entry : NavigationEntry)
deriving Repr, DecidableEq

/-- Length of the stack `NavHistory::pop(mode)` pops from (0 for the invalid
pop modes). -/
def popStackLen (h : NavHistory) : NavigationMode → Nat
  | .goingBack => h.backwardStack.length
  | .goingForward => h.forwardStack.length
  | .reopeningClosedItem => h.closedStack.length
  | _ => 0

/-- The activation step inside the pop loop of `Pane::navigate_history`: set
the history mode to the traversal mode, activate the popped entry's index
(with `move_after_current_active = false`), restore Normal mode. -/
def navAdvance (mode : NavigationMode) (p : Pane) (index : Nat) : Pane :=
  let p1 : Pane := { p with navHistory := p.navHistory.setMode mode }
  let p2 := p1.activateItem index true true false
  { p2 with navHistory := p2.navHistory.setMode .normal }

/-- The pop loop of `Pane::navigate_history`, fuelled.  Every iteration pops
exactly one entry from the stack selected by `mode` and never pushes to it
(the deactivation push lands on the opposite stack), so running the loop with
fuel equal to that stack's length is exactly the source's unbounded loop
(`navigateHistory` below).  `navFn item payload` models
`item.navigate(data)`: whether applying the payload changed visible state. -/
def navigateHistoryAux (navFn : ItemId → Nat → Bool) (mode : NavigationMode) :
    Nat → Pane → Pane × TravOutcome
  | 0, p => (p, .exhausted)
  | fuel + 1, p =>
    match (p.navHistory.pop mode).1 with
    | none => (p, .exhausted)
    | some entry =>
      let p0 : Pane := { p with navHistory := (p.navHistory.pop mode).2 }
      match p0.items.findIdx? (fun i => i.id == entry.item) with
      | some index =>
        let prevActive := p0.activeItemIndex
        let p3 := navAdvance mode p0 index
        let dataNav : Bool :=
          match entry.data with
          | some d =>
            match p3.items[p3.activeItemIndex]? with
            | some ai => navFn ai.id d
            | none => true
          | none => false
        if prevActive ≠ p3.activeItemIndex ∨ dataNav = true then (p3, .navigated)
        else navigateHistoryAux navFn mode fuel p3
      | none =>
        match p0.navHistory.pathsByItem.lookup entry.item with
        | some path => (p0, .reopen path entry)
        | none => navigateHistoryAux navFn mode fuel p0

/-- The synchronous part of `Pane::navigate_history` (steps 1-4 of the
traversal algorithm): loop popping entries until one navigates, the stack is
exhausted, or an absent entry with a known path escapes to the async reopen
path. -/
def navigateHistory (navFn : ItemId → Nat → Bool) (mode : NavigationMode) (p : Pane) :
    Pane × TravOutcome :=
  navigateHistoryAux navFn mode (popStackLen p.navHistory mode) p

/-- The primitive operations through which all of `pane.rs` touches the three
history stacks: `NavHistory::push`, `NavHistory::pop` and the mode changers
(`set_mode`, `disable`, `enable` are all mode stores). -/
inductive NavOp
  | pushOp (data : Option Nat) (item : ItemId)
  | popOp (mode : NavigationMode)
  | setModeOp (mode : NavigationMode)
deriving Repr, DecidableEq

def NavHistory.applyOp (h : NavHistory) : NavOp → NavHistory
  | .pushOp d i => h.push d i
  | .popOp m => (h.pop m).2
  | .setModeOp m => h.setMode m

/-- Run a sequence of primitive history operations from the fresh-pane
history. -/
def runNavOps (ops : List NavOp) : NavHistory :=
  ops.foldl NavHistory.applyOp initialHistory

/-- All three stacks within capacity. -/
def NavHistory.stacksBounded (h : NavHistory) : Prop :=
  h.backwardStack.length ≤ MAX_NAVIGATION_HISTORY_LEN
    ∧ h.forwardStack.length ≤ MAX_NAVIGATION_HISTORY_LEN
    ∧ h.closedStack.length ≤ MAX_NAVIGATION_HISTORY_LEN

/-- The asynchronous inputs `Pane::save_item` consumes for one item: the
user's answer to the conflict prompt (Overwrite/Discard/Cancel as 0/1/2 or
none for a dismissed prompt), the answer to the dirty prompt (Save/Don't
Save/Cancel), the save-as destination (`none` means the path dialog was
cancelled), and whether the `save`, `save_as` and `reload` operations
succeed. -/
structure SaveAnswers where
  conflict : Option Nat
  dirty : Option Nat
  saveAsPath : Option PathId
  saveOk : Bool
  saveAsOk : Bool
  reloadOk : Bool
deriving Repr, DecidableEq

/-- The three ways `Pane::save_item` resolves: `Err(_)`, `Ok(false)` (a user
cancel) and `Ok(true)` (continue the batch). -/
inductive SaveRes
  | err
  | cancel
  | cont
deriving Repr, DecidableEq

/-- `Pane::can_autosave_item`. -/
def canAutosaveItem (it : Item) : Bool :=
  it.isDirty && !it.hasConflict && it.canSave && !it.entryIds.isEmpty

structure SaveItemResult where
  pane : Pane
  result : SaveRes
  prompted : Bool
deriving Repr, DecidableEq

/-- The `if should_save` body of the dirty branch of `Pane::save_item`: save
in place when possible, else (for a singleton) prompt for a destination path
and save-as, cancelling the batch if the path dialog is dismissed. -/
def saveDirtyBody (p : Pane) (it : Item) (ans : SaveAnswers) (prompted : Bool) :
    SaveItemResult :=
  if it.canSave then ⟨p, if ans.saveOk then .cont else .err, prompted⟩
  else if it.isSingleton then
    match ans.saveAsPath with
    | some _ => ⟨p, if ans.saveAsOk then .cont else .err, true⟩
    | none => ⟨p, .cancel, true⟩
  else ⟨p, .cont, prompted⟩

/-- `Pane::save_item`: conflict branch (Overwrite/Discard/Cancel), dirty
branch (skip the prompt when an autosave policy would fire, else
Save/Don't Save/Cancel), clean items fall through to `Ok(true)`.  Both
prompting branches first activate the item (`move_after_current_active =
false`).  `prompted` records whether any modal prompt was shown. -/
def saveItem (autosave : Bool) (p : Pane) (itemIx : Nat) (it : Item)
    (shouldPromptForSave : Bool) (ans : SaveAnswers) : SaveItemResult :=
  if it.hasConflict && it.canSave then
    let p1 := p.activateItem itemIx true true false
    match ans.conflict with
    | some 0 => ⟨p1, if ans.saveOk then .cont else .err, true⟩
    | some 1 => ⟨p1, if ans.reloadOk then .cont else .err, true⟩
    | _ => ⟨p1, .cancel, true⟩
  else if it.isDirty && (it.canSave || it.isSingleton) then
    let willAutosave := autosave && canAutosaveItem it
    if shouldPromptForSave && !willAutosave then
      let p1 := p.activateItem itemIx true true false
      match ans.dirty with
      | some 0 => saveDirtyBody p1 it ans true
      | some 1 => ⟨p1, .cont, true⟩
      | _ => ⟨p1, .cancel, true⟩
    else saveDirtyBody p it ans false
  else ⟨p, .cont, false⟩

/-- The `pane.update` block at the end of each `close_items` iteration
(removing the item from the pane): shift activation off the removed item,
remove it, emit signals, fix up the active index, record the ClosingItem
history entry through the item's deactivation notification, and update the
`paths_by_item` table.  When the pane becomes empty the source also fires the
deactivation notification once more while the mode is still Normal. -/
def removeClosedItem (p : Pane) (it : Item) : Pane :=
  match p.items.findIdx? (fun i => i.id == it.id) with
  | none => p
  | some itemIx =>
    let p1 :=
      if itemIx == p.activeItemIndex then
        if 0 < itemIx then p.activatePrevItem
        else if itemIx + 1 < p.items.length then p.activateNextItem
        else p
      else p
    let removed := (p1.items[itemIx]?).getD it
    let items2 := p1.items.eraseIdx itemIx
    let nav2 := if items2.isEmpty then deactivateItem p1.navHistory removed else p1.navHistory
    let active2 :=
      if itemIx < p1.activeItemIndex then p1.activeItemIndex - 1 else p1.activeItemIndex
    let h1 := nav2.setMode .closingItem
    let h2 := deactivateItem h1 removed
    let h3 := h2.setMode .normal
    let h4 :=
      match removed.projectPath with
      | some path =>
        { h3 with pathsByItem :=
            (removed.id, path) :: h3.pathsByItem.filter (fun kv => kv.1 != removed.id) }
      | none =>
        { h3 with pathsByItem := h3.pathsByItem.filter (fun kv => kv.1 != removed.id) }
    { items := items2, activeItemIndex := active2, navHistory := h4,
      autoscroll := p1.autoscroll }

/-- The workspace as the close workflow sees it: the pane being closed plus
the items open in other panes (consulted by the `workspace.items(cx)`
deduplication scan, never mutated by this close). -/
structure Workspace where
  pane : Pane
  otherItems : List Item
deriving Repr, DecidableEq

/-- `workspace.items(cx)`: every item in every pane. -/
def Workspace.allItems (w : Workspace) : List Item := w.pane.items ++ w.otherItems

/-- The retain loop of `close_items` step 4: drop from the item's project
entries every entry also referenced by a workspace item outside the close
batch. -/
def retainNotOpenElsewhere (allItems : List Item) (batchIds : List ItemId)
    (ids : List EntryId) : List EntryId :=
  ids.filter (fun id =>
    !(allItems.any (fun w => !(batchIds.contains w.id) && w.entryIds.contains id)))

/-- `project_entry_ids.iter().any(|id| saved_project_entry_ids.insert(*id))`:
short-circuiting `any` over `HashSet::insert`.  Ids already present are
skipped; the first new id is inserted and stops the scan, so at most one id
is inserted per call.  Returns (found, updated set, the id inserted). -/
def anyInsert (saved : List EntryId) : List EntryId → Bool × List EntryId × Option EntryId
  | [] => (false, saved, none)
  | id :: rest =>
    if id ∈ saved then anyInsert saved rest
    else (true, id :: saved, some id)

/-- Log of one `close_items` loop iteration, recording what the theorems need
to speak about the run: presence, the resolved entry sets, the
`saved_project_entry_ids` contents when the iteration started, the save
decision, whether a prompt was shown, the `save_item` result, and whether the
item was removed from the pane. -/
structure CandLog where
  itemId : ItemId
  present : Bool
  entryIds : List EntryId
  remaining : List EntryId
  savedBefore : List EntryId
  shouldSave : Bool
  newlyInserted : Option EntryId
  prompted : Bool
  saveResult : Option SaveRes
  removed : Bool
deriving Repr, DecidableEq

/-- Step 4 of the close algorithm for one candidate: decide whether a save
prompt is needed.  An item with no project entries always needs one;
otherwise retain only the entries not open outside the batch and run the
short-circuiting insert-any over `saved_project_entry_ids`.  Returns
(should_save, updated saved set, newly inserted id, retained entries). -/
def shouldSaveStep (w : Workspace) (batchIds : List ItemId) (item : Item)
    (saved : List EntryId) : Bool × List EntryId × Option EntryId × List EntryId :=
  if item.entryIds.isEmpty then (true, saved, none, [])
  else
    let remaining := retainNotOpenElsewhere w.allItems batchIds item.entryIds
    let a := anyInsert saved remaining
    (a.1, a.2.1, a.2.2, remaining)

/-- The `for item in items_to_close` loop of `Pane::close_items`.  Returns
the final workspace, the per-candidate log, and the task's result:
`none` models `Err(_)` (a failed save/reload propagated by `?`), `some b`
models `Ok(b)`.  A cancelled save breaks out of the loop; the source then
still returns `Ok(true)`. -/
def closeItemsGo (autosave : Bool) (oracle : ItemId → SaveAnswers) (batchIds : List ItemId) :
    List Item → Workspace → List EntryId → Workspace × List CandLog × Option Bool
  | [], w, _ => (w, [], some true)
  | item :: rest, w, saved =>
    match w.pane.items.findIdx? (fun i => i.id == item.id) with
    | none =>
      let r := closeItemsGo autosave oracle batchIds rest w saved
      (r.1, ⟨item.id, false, item.entryIds, [], saved, false, none, false, none, false⟩ :: r.2.1,
        r.2.2)
    | some itemIx =>
      let sv := shouldSaveStep w batchIds item saved
      if sv.1 then
        let sr := saveItem autosave w.pane itemIx item true (oracle item.id)
        let w2 : Workspace := { w with pane := sr.pane }
        match sr.result with
        | .err =>
          (w2, [⟨item.id, true, item.entryIds, sv.2.2.2, saved, true, sv.2.2.1, sr.prompted,
            some .err, false⟩], none)
        | .cancel =>
          (w2, [⟨item.id, true, item.entryIds, sv.2.2.2, saved, true, sv.2.2.1, sr.prompted,
            some .cancel, false⟩], some true)
        | .cont =>
          let w3 : Workspace := { w2 with pane := removeClosedItem w2.pane item }
          let r := closeItemsGo autosave oracle batchIds rest w3 sv.2.1
          (r.1, ⟨item.id, true, item.entryIds, sv.2.2.2, saved, true, sv.2.2.1, sr.prompted,
            some .cont, true⟩ :: r.2.1, r.2.2)
      else
        let w3 : Workspace := { w with pane := removeClosedItem w.pane item }
        let r := closeItemsGo autosave oracle batchIds rest w3 sv.2.1
        (r.1, ⟨item.id, true, item.entryIds, sv.2.2.2, saved, false, sv.2.2.1, false,
          none, true⟩ :: r.2.1, r.2.2)

/-- The candidate snapshot of `Pane::close_items`: filter by the predicate,
then the stable sort by `!is_singleton` (singleton items first). -/
def closeBatch (w : Workspace) (shouldClose : ItemId → Bool) : List Item :=
  let itemsToClose := w.pane.items.filter (fun i => shouldClose i.id)
  itemsToClose.filter (fun i => i.isSingleton) ++ itemsToClose.filter (fun i => !i.isSingleton)

/-- `Pane::close_items`: snapshot and sort the candidates, then run the close
loop with an empty `saved_project_entry_ids` set. -/
def closeItems (autosave : Bool) (oracle : ItemId → SaveAnswers) (w : Workspace)
    (shouldClose : ItemId → Bool) : Workspace × List CandLog × Option Bool :=
  let batch := closeBatch w shouldClose
  closeItemsGo autosave oracle (batch.map Item.id) batch w []

/-- Modelled from the spec: `item.tab_description(detail)` is an item
capability outside this crate.  Per the spec, detail level `d` formats the
file name plus its last `d` ancestor directories ("detail 0 = filename only,
1 = filename + parent directory, ..."), and an item "runs out of ancestry to
add": beyond the available components the description stops changing.  We
keep the description as the list of retained path components (an injective
rendering of the formatted label); items with no path have no description at
any level. -/
def tabDescription (it : Item) (detail : Nat) : Option (List String) :=
  match it.tabPath with
  | none => none
  | some comps => some (comps.drop (comps.length - (detail + 1)))

/-- The grouping-key test inside `Pane::tab_details`: an item participates in
a pass only if it has a description at its current detail and (when detail >
0) that description still differs from the one at the previous detail. -/
def tabKey (it : Item) (detail : Nat) : Option (List String) :=
  match tabDescription it detail with
  | none => none
  | some desc =>
    if detail == 0 || !(some desc == tabDescription it (detail - 1)) then some desc
    else none

def tabKeys (items : List Item) (details : List Nat) : List (Option (List String)) :=
  (items.zip details).map (fun e => tabKey e.1 e.2)

/-- One pass of the `while !done` loop of `Pane::tab_details`: group
participating items by description and increment the detail of every member
of every group with more than one member.  (The source builds a hash map and
drains it; incrementing exactly the indices whose key is shared by at least
two items is the same update, independent of drain order.) -/
def tabOnePass (items : List Item) (details : List Nat) : List Nat :=
  let keys := tabKeys items details
  details.mapIdx (fun i d =>
    match keys[i]? with
    | some (some key) =>
      if 2 ≤ keys.countP (fun k2 => k2 == some key) then d + 1 else d
    | _ => d)

/-- An upper bound on how far one item's detail can be pushed: its detail is
only ever incremented while its description is still changing, which stops
at its path length. -/
def tabBound (it : Item) : Nat :=
  match it.tabPath with
  | none => 1
  | some comps => max 1 comps.length

/-- Termination measure for the fixed-point iteration: total remaining
headroom of all details below their bounds. -/
def tabMeasure (items : List Item) (details : List Nat) : Nat :=
  (List.zipWith (fun it d => tabBound it - d) items details).sum

/-- The `while !done` loop of `Pane::tab_details`, fuelled.  Every pass that
is not yet done strictly decreases `tabMeasure` (theorem
`tabOnePass_measure_lt`), so fuel `tabMeasure + 1` runs the loop to its fixed
point exactly as the source's unbounded loop does. -/
def tabDetailsAux (items : List Item) : Nat → List Nat → List Nat
  | 0, details => details
  | fuel + 1, details =>
    let next := tabOnePass items details
    if next == details then details
    else tabDetailsAux items fuel next

/-- `Pane::tab_details`: start every item at detail 0 and iterate to the
fixed point. -/
def tabDetails (items : List Item) : List Nat :=
  let start := items.map (fun _ => 0)
  tabDetailsAux items (tabMeasure items start + 1) start

end Zed

namespace Zed

/-- The complete mode-dispatch table of `NavHistory::push` as one
equation. -/
theorem push_eq_mode_table (h : NavHistory) (d : Option Nat) (i : ItemId) :
    h.push d i =
      match h.mode with
      | .normal | .reopeningClosedItem =>
          { h with backwardStack := pushEntry h.backwardStack ⟨i, d⟩, forwardStack := [] }
      | .goingBack => { h with forwardStack := pushEntry h.forwardStack ⟨i, d⟩ }
      | .goingForward => { h with backwardStack := pushEntry h.backwardStack ⟨i, d⟩ }
      | .closingItem => { h with closedStack := pushEntry h.closedStack ⟨i, d⟩ }
      | .disabled => h := by
  cases hm : h.mode <;> simp [NavHistory.push, hm]

theorem pushEntry_getLast (s : List NavigationEntry) (e : NavigationEntry) :
    (pushEntry s e).getLast? = some e := by
  unfold pushEntry
  split <;> exact List.getLast?_concat _

theorem pushEntry_length_le (s : List NavigationEntry) (e : NavigationEntry)
    (h : s.length ≤ MAX_NAVIGATION_HISTORY_LEN) :
    (pushEntry s e).length ≤ MAX_NAVIGATION_HISTORY_LEN := by
  have hmax : 0 < MAX_NAVIGATION_HISTORY_LEN := by decide
  unfold pushEntry
  split <;>
    simp only [List.length_append, List.length_tail, List.length_cons, List.length_nil] <;>
    omega

theorem pushEntry_at_capacity (s : List NavigationEntry) (e : NavigationEntry)
    (h : s.length = MAX_NAVIGATION_HISTORY_LEN) :
    pushEntry s e = s.tail ++ [e] ∧ (pushEntry s e).length = MAX_NAVIGATION_HISTORY_LEN := by
  have hmax : 0 < MAX_NAVIGATION_HISTORY_LEN := by decide
  unfold pushEntry
  rw [if_pos (le_of_eq h.symm)]
  refine ⟨rfl, ?_⟩
  simp [List.length_tail]
  omega

/-- Inserting at a position within bounds is a permutation with consing. -/
theorem perm_insertIdx_cons {α : Type u_1} (a : α) :
    ∀ (n : Nat) (l : List α), n ≤ l.length → (List.insertIdx n a l).Perm (a :: l)
  | 0, l, _ => by simp
  | n + 1, [], h => by simp at h
  | n + 1, b :: l, h => by
    rw [List.insertIdx_succ_cons]
    exact ((perm_insertIdx_cons a n l (by simpa using h)).cons b).trans (List.Perm.swap a b l)

/-- A list is a permutation of its element at `i` consed onto the list with
position `i` erased. -/
theorem perm_cons_eraseIdx {α : Type u_1} :
    ∀ (l : List α) (i : Nat) (h : i < l.length), l.Perm (l.get ⟨i, h⟩ :: l.eraseIdx i)
  | a :: l, 0, _ => by simp
  | a :: l, i + 1, h => by
    have ih := perm_cons_eraseIdx l i (by simpa using h)
    simpa using (ih.cons a).trans (List.Perm.swap _ a _)

theorem activateItem_items_of_not_move (p : Pane) (ix : Nat) (a f : Bool) :
    (p.activateItem ix a f false).items = p.items := by
  unfold Pane.activateItem
  split
  · simp only [Bool.false_eq_true, false_and, if_false]
    split <;> first | rfl | (split <;> rfl)
  · rfl

theorem activateItem_active_of_lt (p : Pane) (ix : Nat) (a f : Bool)
    (h : ix < p.items.length) :
    (p.activateItem ix a f false).activeItemIndex = ix := by
  unfold Pane.activateItem
  rw [dif_pos h]
  simp only [Bool.false_eq_true, false_and, if_false]
  split <;> first | rfl | (split <;> rfl)

theorem activateItem_out_of_range (p : Pane) (ix : Nat) (a f m : Bool)
    (h : p.items.length ≤ ix) : p.activateItem ix a f m = p := by
  unfold Pane.activateItem
  rw [dif_neg (by omega)]

theorem activateItem_items_perm (p : Pane) (ix : Nat) (a f m : Bool) :
    ((p.activateItem ix a f m).items).Perm p.items := by
  unfold Pane.activateItem
  split
  case isFalse => exact .refl _
  case isTrue hix =>
    have herase : (p.items.eraseIdx ix).length = p.items.length - 1 := by
      rw [List.length_eraseIdx, if_pos hix]
    have operm : ∀ (j : Nat), j ≤ (p.items.eraseIdx ix).length →
        ((List.insertIdx j (p.items.get ⟨ix, hix⟩) (p.items.eraseIdx ix)).Perm p.items) :=
      fun j hj => (perm_insertIdx_cons _ j _ hj).trans (perm_cons_eraseIdx p.items ix hix).symm
    by_cases hc : m = true ∧ p.activeItemIndex ≠ ix ∧ p.activeItemIndex < p.items.length
    · rw [if_pos hc]
      by_cases h1 : p.activeItemIndex < ix
      · rw [if_pos h1]
        dsimp only
        split <;>
          first
          | exact operm _ (by omega)
          | (split <;> exact operm _ (by omega))
      · rw [if_neg h1]
        by_cases h2 : p.activeItemIndex < (p.items.eraseIdx ix).length + 1
        · rw [if_pos h2]
          dsimp only
          split <;>
            first
            | exact operm _ (by omega)
            | (split <;> exact operm _ (by omega))
        · rw [if_neg h2]
          dsimp only
          split <;>
            first
            | exact operm _ (by omega)
            | (split <;> exact operm _ (by omega))
    · rw [if_neg hc]
      dsimp only
      split <;> (first | rfl | (split <;> rfl))

theorem activateItem_items_length (p : Pane) (ix : Nat) (a f m : Bool) :
    (p.activateItem ix a f m).items.length = p.items.length :=
  (activateItem_items_perm p ix a f m).length_eq

/-- The complete history effect of a non-reordering activation: the previous
item (looked up at the previous active index) receives the deactivation push
when the index changed or the mode is GoingBack/GoingForward. -/
theorem activateItem_navHistory_of_not_move (p : Pane) (ix : Nat) (a f : Bool)
    (h : ix < p.items.length) :
    (p.activateItem ix a f false).navHistory =
      (if p.activeItemIndex ≠ ix ∨ p.navHistory.mode = .goingBack
          ∨ p.navHistory.mode = .goingForward then
        match p.items[p.activeItemIndex]? with
        | some prevItem => deactivateItem p.navHistory prevItem
        | none => p.navHistory
      else p.navHistory) := by
  unfold Pane.activateItem
  rw [dif_pos h]
  simp only [Bool.false_eq_true, false_and, if_false]
  split <;> first | rfl | (split <;> rfl)

theorem push_mode (h : NavHistory) (d : Option Nat) (i : ItemId) :
    (h.push d i).mode = h.mode := by
  cases hm : h.mode <;> simp [NavHistory.push, hm]

theorem push_goingBack (h : NavHistory) (hm : h.mode = .goingBack) (d : Option Nat)
    (i : ItemId) :
    h.push d i = { h with forwardStack := pushEntry h.forwardStack ⟨i, d⟩ } := by
  simp [NavHistory.push, hm]

theorem push_goingForward (h : NavHistory) (hm : h.mode = .goingForward) (d : Option Nat)
    (i : ItemId) :
    h.push d i = { h with backwardStack := pushEntry h.backwardStack ⟨i, d⟩ } := by
  simp [NavHistory.push, hm]

theorem navAdvance_items (m : NavigationMode) (p : Pane) (ix : Nat) :
    (navAdvance m p ix).items = p.items := by
  unfold navAdvance
  exact activateItem_items_of_not_move _ _ _ _

theorem navAdvance_active (m : NavigationMode) (p : Pane) (ix : Nat)
    (h : ix < p.items.length) :
    (navAdvance m p ix).activeItemIndex = ix := by
  unfold navAdvance
  exact activateItem_active_of_lt _ _ _ _ h

theorem navAdvance_mode (m : NavigationMode) (p : Pane) (ix : Nat) :
    (navAdvance m p ix).navHistory.mode = .normal := rfl

/-- During a GoingBack or GoingForward advance the deactivation notification
fires unconditionally, so the departed item's entry is pushed (in the
traversal mode) and Normal mode is restored. -/
theorem navAdvance_nav (m : NavigationMode) (p : Pane) (ix : Nat) (X : Item)
    (h : ix < p.items.length) (hX : p.items[p.activeItemIndex]? = some X)
    (hmb : m = .goingBack ∨ m = .goingForward) :
    (navAdvance m p ix).navHistory =
      (((p.navHistory.setMode m).push X.payload X.id).setMode .normal) := by
  simp only [navAdvance]
  have hcond := activateItem_navHistory_of_not_move
    ({ p with navHistory := p.navHistory.setMode m } : Pane) ix true true h
  rw [hcond]
  rcases hmb with hm | hm <;> subst hm <;>
    simp [NavHistory.setMode, hX, deactivateItem]

theorem navAdvance_goingBack_forwardStack (p : Pane) (ix : Nat) (X : Item)
    (h : ix < p.items.length) (hX : p.items[p.activeItemIndex]? = some X) :
    (navAdvance .goingBack p ix).navHistory.forwardStack
      = pushEntry p.navHistory.forwardStack ⟨X.id, X.payload⟩ := by
  rw [navAdvance_nav .goingBack p ix X h hX (Or.inl rfl)]
  simp [NavHistory.setMode, NavHistory.push]

/-- With duplicate-free ids, the id-scan of `index_for_item` recovers exactly
the position an item is known to sit at. -/
theorem findIdx_id_of_nodup (l : List Item) (j : Nat) (X : Item)
    (hnd : (l.map Item.id).Nodup) (hj : l[j]? = some X) :
    l.findIdx? (fun i => i.id == X.id) = some j := by
  rw [List.findIdx?_eq_some_iff_getElem]
  obtain ⟨hlt, hget⟩ := List.getElem?_eq_some.mp hj
  refine ⟨hlt, by simp [hget], ?_⟩
  intro k hk
  have hkl : k < l.length := Nat.lt_trans hk hlt
  have hmapk : k < (l.map Item.id).length := by simpa using hkl
  have hmapj : j < (l.map Item.id).length := by simpa using hlt
  have hne : (l.map Item.id)[k] ≠ (l.map Item.id)[j] := fun hEq => by
    have := (@List.Nodup.getElem_inj_iff _ _ hnd k hmapk j hmapj).mp hEq
    omega
  simp only [List.getElem_map] at hne
  rw [hget] at hne
  simpa using hne

/-- Invariants of a GoingBack traversal run that ends by navigating to a
different index: the pane's item list is untouched, the departed item's
entry sits on top of the forward stack (each deactivation push during the
run pushed the same still-active item, and the final one is last), and
Normal mode is restored. -/
theorem goBack_run_spec (navFn : ItemId → Nat → Bool) (fuel : Nat) :
    ∀ (p q : Pane) (X : Item),
      p.items[p.activeItemIndex]? = some X →
      navigateHistoryAux navFn .goingBack fuel p = (q, .navigated) →
      q.activeItemIndex ≠ p.activeItemIndex →
      q.items = p.items ∧
      q.navHistory.forwardStack.getLast? = some ⟨X.id, X.payload⟩ ∧
      q.navHistory.mode = .normal := by
  induction fuel with
  | zero =>
    intro p q X hX hres hdiff
    simp [navigateHistoryAux] at hres
  | succ fuel ih =>
    intro p q X hX hres hdiff
    simp only [navigateHistoryAux, NavHistory.pop] at hres
    cases hpop : p.navHistory.backwardStack.getLast? with
    | none =>
      rw [hpop] at hres
      simp at hres
    | some entry =>
      rw [hpop] at hres
      dsimp only at hres
      cases hfind : p.items.findIdx? (fun i => i.id == entry.item) with
      | some index =>
        rw [hfind] at hres
        have hlt : index < p.items.length :=
          (List.findIdx?_eq_some_iff_getElem.mp hfind).1
        dsimp only at hres
        split at hres
        case isTrue hcond =>
          have hq := congrArg Prod.fst hres
          dsimp only at hq
          refine ⟨?_, ?_, ?_⟩
          · rw [← hq, navAdvance_items]
          · rw [← hq, navAdvance_goingBack_forwardStack]
            · exact pushEntry_getLast _ _
            · exact hlt
            · exact hX
          · rw [← hq]
            exact navAdvance_mode _ _ _
        case isFalse hcond =>
          push_neg at hcond
          obtain ⟨hEq, _⟩ := hcond
          have main := ih _ q X ?hX3 hres ?hdiff3
          case hX3 =>
            rw [navAdvance_items, ← hEq]
            exact hX
          case hdiff3 =>
            rw [← hEq]
            exact hdiff
          obtain ⟨h1, h2, h3⟩ := main
          rw [navAdvance_items] at h1
          exact ⟨h1, h2, h3⟩
      | none =>
        rw [hfind] at hres
        dsimp only at hres
        cases hlook : p.navHistory.pathsByItem.lookup entry.item with
        | some path =>
          rw [hlook] at hres
          simp at hres
        | none =>
          rw [hlook] at hres
          dsimp only at hres
          obtain ⟨h1, h2, h3⟩ := ih _ q X (by exact hX) hres (by exact hdiff)
          exact ⟨h1, h2, h3⟩

/-- C5: round-trip law.  For a pane with duplicate-free item ids whose active
item is `X`, if the GoingBack traversal ends by navigating and lands on a
different index, then immediately running the GoingForward traversal (no
intervening Normal-mode navigation) navigates again and makes `X` the active
item: the departed position was pushed onto the forward stack by the
GoingBack-mode deactivation push, and the forward traversal pops it and
re-activates `X`'s index. -/
theorem back_then_forward_restores_active (navFn : ItemId → Nat → Bool) (p : Pane) (X : Item)
    (hnd : (p.items.map Item.id).Nodup)
    (hX : p.items[p.activeItemIndex]? = some X)
    (hback : (navigateHistory navFn .goingBack p).2 = .navigated)
    (hdiff : (navigateHistory navFn .goingBack p).1.activeItemIndex ≠ p.activeItemIndex) :
    (navigateHistory navFn .goingForward (navigateHistory navFn .goingBack p).1).2 = .navigated
    ∧ (navigateHistory navFn .goingForward
        (navigateHistory navFn .goingBack p).1).1.items[(navigateHistory navFn .goingForward
        (navigateHistory navFn .goingBack p).1).1.activeItemIndex]? = some X := by
  obtain ⟨hplt, _⟩ := List.getElem?_eq_some.mp hX
  set q := (navigateHistory navFn .goingBack p).1 with hqdef
  have hres : navigateHistoryAux navFn .goingBack (popStackLen p.navHistory .goingBack) p
      = (q, .navigated) := by
    rw [hqdef, ← hback]
    exact Prod.mk.eta.symm
  obtain ⟨hqitems, hqfwd, hqmode⟩ := goBack_run_spec navFn _ p q X hX hres hdiff
  obtain ⟨n, hn⟩ : ∃ n, q.navHistory.forwardStack.length = n + 1 := by
    rcases hfl : q.navHistory.forwardStack with _ | ⟨e, rest⟩
    · rw [hfl] at hqfwd
      simp at hqfwd
    · exact ⟨rest.length, by simp [hfl]⟩
  show (navigateHistoryAux navFn .goingForward
        (popStackLen q.navHistory .goingForward) q).2 = .navigated
    ∧ (navigateHistoryAux navFn .goingForward
        (popStackLen q.navHistory .goingForward) q).1.items[(navigateHistoryAux navFn .goingForward
        (popStackLen q.navHistory .goingForward) q).1.activeItemIndex]? = some X
  simp only [popStackLen]
  rw [hn]
  simp only [navigateHistoryAux, NavHistory.pop]
  rw [hqfwd]
  dsimp only
  rw [hqitems, findIdx_id_of_nodup p.items p.activeItemIndex X hnd hX]
  dsimp only
  split
  case isTrue hcond =>
    refine ⟨rfl, ?_⟩
    dsimp only
    rw [navAdvance_items, navAdvance_active]
    · exact hX
    · exact hplt
  case isFalse hcond =>
    exfalso
    apply hcond
    left
    rw [navAdvance_active]
    · exact hdiff
    · exact hplt

theorem push_stacksBounded (h : NavHistory) (d : Option Nat) (i : ItemId)
    (hb : h.stacksBounded) : (h.push d i).stacksBounded := by
  obtain ⟨h1, h2, h3⟩ := hb
  rw [push_eq_mode_table]
  split <;>
    first
    | exact ⟨pushEntry_length_le _ _ h1, Nat.zero_le _, h3⟩
    | exact ⟨h1, pushEntry_length_le _ _ h2, h3⟩
    | exact ⟨pushEntry_length_le _ _ h1, h2, h3⟩
    | exact ⟨h1, h2, pushEntry_length_le _ _ h3⟩
    | exact ⟨h1, h2, h3⟩

theorem pop_stacksBounded (h : NavHistory) (m : NavigationMode) (hb : h.stacksBounded) :
    ((h.pop m).2).stacksBounded := by
  obtain ⟨h1, h2, h3⟩ := hb
  cases m <;>
    simp only [NavHistory.pop, NavHistory.stacksBounded] <;>
    refine ⟨?_, ?_, ?_⟩ <;>
    first
    | assumption
    | (rw [List.length_dropLast]; omega)

theorem applyOp_stacksBounded (h : NavHistory) (op : NavOp) (hb : h.stacksBounded) :
    (h.applyOp op).stacksBounded := by
  cases op with
  | pushOp d i => exact push_stacksBounded h d i hb
  | popOp m => exact pop_stacksBounded h m hb
  | setModeOp m => exact hb

/-- Starting from the fresh history, no operation sequence can push any of
the three stacks past the fixed capacity. -/
theorem runNavOps_stacksBounded (ops : List NavOp) : (runNavOps ops).stacksBounded := by
  have hgen : ∀ (l : List NavOp) (h : NavHistory), h.stacksBounded →
      (l.foldl NavHistory.applyOp h).stacksBounded := by
    intro l
    induction l with
    | nil => intro h hb; exact hb
    | cons op ops ih =>
      intro h hb
      exact ih _ (applyOp_stacksBounded h op hb)
  exact hgen ops initialHistory ⟨Nat.zero_le _, Nat.zero_le _, Nat.zero_le _⟩

/-- A clean item to build concrete witnesses from. -/
def blankItem : Item :=
  { id := 0, entryIds := [], isSingleton := true, isDirty := false, hasConflict := false,
    canSave := true, projectPath := none, payload := none, tabPath := none }

/-- C2: the effect of `NavHistory::push` is determined by the current mode
exactly as the mode-dispatch table states: in Normal or ReopeningClosedItem
mode the entry is appended to the backward stack (with capacity eviction) and
the forward stack becomes empty — in particular the forward stack is empty
immediately after any Normal-mode push; in GoingBack mode it is appended to
the forward stack; in GoingForward mode to the backward stack; in ClosingItem
mode to the closed stack; in Disabled mode all three stacks (and the whole
history) are unchanged. -/
theorem navHistory_push_mode_dispatch (h : NavHistory) (d : Option Nat) (i : ItemId) :
    h.push d i =
      match h.mode with
      | .normal | .reopeningClosedItem =>
          { h with backwardStack := pushEntry h.backwardStack ⟨i, d⟩, forwardStack := [] }
      | .goingBack => { h with forwardStack := pushEntry h.forwardStack ⟨i, d⟩ }
      | .goingForward => { h with backwardStack := pushEntry h.backwardStack ⟨i, d⟩ }
      | .closingItem => { h with closedStack := pushEntry h.closedStack ⟨i, d⟩ }
      | .disabled => h :=
  push_eq_mode_table h d i

/-- C6: every sequence of history operations keeps all three stacks at no
more than `MAX_NAVIGATION_HISTORY_LEN` (1024) entries, and a push directed at
a stack already holding exactly 1024 entries first evicts the front (oldest)
entry and then appends the new entry at the back, leaving the length at
1024. -/
theorem nav_stacks_never_exceed_capacity (ops : List NavOp) :
    (runNavOps ops).stacksBounded
    ∧ ∀ (s : List NavigationEntry) (e : NavigationEntry),
        s.length = MAX_NAVIGATION_HISTORY_LEN →
        pushEntry s e = s.tail ++ [e]
        ∧ (pushEntry s e).length = MAX_NAVIGATION_HISTORY_LEN :=
  ⟨runNavOps_stacksBounded ops, fun s e hs => pushEntry_at_capacity s e hs⟩

/-- Witness for C6 at a concrete operation sequence and a concrete
at-capacity stack. -/
theorem nav_stacks_never_exceed_capacity_witness :
    (runNavOps [NavOp.pushOp none 7, NavOp.popOp .goingBack]).stacksBounded
    ∧ (pushEntry (List.replicate MAX_NAVIGATION_HISTORY_LEN ⟨0, none⟩) ⟨7, none⟩
        = (List.replicate MAX_NAVIGATION_HISTORY_LEN (⟨0, none⟩ : NavigationEntry)).tail ++ [⟨7, none⟩]
      ∧ (pushEntry (List.replicate MAX_NAVIGATION_HISTORY_LEN ⟨0, none⟩)
          (⟨7, none⟩ : NavigationEntry)).length = MAX_NAVIGATION_HISTORY_LEN) :=
  ⟨(nav_stacks_never_exceed_capacity _).1,
   (nav_stacks_never_exceed_capacity []).2 _ _ (List.length_replicate _ _)⟩

/-- C8: for an in-range index, `activate_item` with
`move_after_current_active = true` preserves the multiset of items (the
target is removed and reinserted, never dropped or duplicated): the item
sequences before and after are permutations of each other, and the length is
unchanged. -/
theorem activate_move_after_preserves_items (p : Pane) (ix : Nat) (a f : Bool)
    (_h : ix < p.items.length) :
    ((p.activateItem ix a f true).items).Perm p.items
    ∧ (p.activateItem ix a f true).items.length = p.items.length :=
  ⟨activateItem_items_perm p ix a f true, activateItem_items_length p ix a f true⟩

def paneC8 : Pane :=
  { items := [blankItem, { blankItem with id := 1 }, { blankItem with id := 2 }],
    activeItemIndex := 2, navHistory := initialHistory, autoscroll := false }

/-- Witness for C8: move-after-activating index 0 of a three-item pane. -/
theorem activate_move_after_preserves_items_witness :
    (0 : Nat) < paneC8.items.length
    ∧ ((paneC8.activateItem 0 true true true).items).Perm paneC8.items
    ∧ (paneC8.activateItem 0 true true true).items.length = paneC8.items.length :=
  ⟨by decide,
   (activate_move_after_preserves_items paneC8 0 true true (by decide)).1,
   (activate_move_after_preserves_items paneC8 0 true true (by decide)).2⟩

/-- C9: every index-based activation entry point silently no-ops on an
out-of-range index: `activate_item` with any flag combination returns the
pane unchanged (items, active index, history and autoscroll flag all
untouched), the `ActivateItem(ix)` action handler does likewise, and the
`ActivateLastItem` handler — whose `items.len() - 1` wraps around to
`usize::MAX` on an empty pane — also no-ops on an empty pane. -/
theorem index_ops_noop_out_of_range (p : Pane) (ix : Nat)
    (h : p.items.length ≤ ix) :
    (∀ a f m : Bool, p.activateItem ix a f m = p)
    ∧ p.activateItemAction ix = p
    ∧ (p.items = [] → p.activateLastItem = p) := by
  refine ⟨fun a f m => activateItem_out_of_range p ix a f m h,
    activateItem_out_of_range p ix true true false h, fun hempty => ?_⟩
  exact activateItem_out_of_range p _ true true false
    (by rw [hempty]; exact Nat.zero_le _)

def paneC9 : Pane :=
  { items := [], activeItemIndex := 0, navHistory := initialHistory, autoscroll := false }

/-- Witness for C9: the empty pane with index 3. -/
theorem index_ops_noop_out_of_range_witness :
    (paneC9.items.length ≤ 3
    ∧ (∀ a f m : Bool, paneC9.activateItem 3 a f m = paneC9)
    ∧ paneC9.activateItemAction 3 = paneC9)
    ∧ (paneC9.items = [] ∧ paneC9.activateLastItem = paneC9) :=
  ⟨⟨by decide, (index_ops_noop_out_of_range paneC9 3 (by decide)).1,
    (index_ops_noop_out_of_range paneC9 3 (by decide)).2.1⟩,
   ⟨rfl, (index_ops_noop_out_of_range paneC9 3 (by decide)).2.2 rfl⟩⟩

def itemC5A : Item := { blankItem with id := 1 }

def itemC5X : Item := { blankItem with id := 2 }

def paneC5 : Pane :=
  { items := [itemC5A, itemC5X], activeItemIndex := 1,
    navHistory := { initialHistory with backwardStack := [⟨1, none⟩] },
    autoscroll := false }

def navC5 : ItemId → Nat → Bool := fun _ _ => false

/-- Witness for C5: a two-item pane with the second item active and one
backward entry for the first; going back then forward restores the second
item. -/
theorem back_then_forward_restores_active_witness :
    ((paneC5.items.map Item.id).Nodup
      ∧ paneC5.items[paneC5.activeItemIndex]? = some itemC5X
      ∧ (navigateHistory navC5 .goingBack paneC5).2 = .navigated
      ∧ (navigateHistory navC5 .goingBack paneC5).1.activeItemIndex ≠ paneC5.activeItemIndex)
    ∧ ((navigateHistory navC5 .goingForward
          (navigateHistory navC5 .goingBack paneC5).1).2 = .navigated
      ∧ (navigateHistory navC5 .goingForward
          (navigateHistory navC5 .goingBack paneC5).1).1.items[(navigateHistory navC5 .goingForward
          (navigateHistory navC5 .goingBack paneC5).1).1.activeItemIndex]? = some itemC5X) :=
  ⟨⟨by decide, by decide, by decide, by decide⟩,
   back_then_forward_restores_active navC5 paneC5 itemC5X (by decide) (by decide)
     (by decide) (by decide)⟩

def itemC10Comp : Item :=
  { blankItem with id := 1, entryIds := [5, 6], projectPath := some 0 }

def paneC10 : Pane :=
  { items := [itemC10Comp], activeItemIndex := 0, navHistory := initialHistory,
    autoscroll := false }

def itemC10New : Item :=
  { blankItem with id := 9, entryIds := [5], projectPath := some 0 }

/-- Counterexample to C10 as stated: project entry 5 is open in the pane —
inside the composite (multi-resource) item `itemC10Comp` — yet `open_item`
for entry 5 does not reuse that item: the reuse scan requires the open
item's `project_entry_ids` to equal exactly `[entry]`, so the built item is
inserted and the pane's item count grows from 1 to 2. -/
theorem open_item_composite_not_reused :
    (5 ∈ itemC10Comp.entryIds ∧ itemC10Comp ∈ paneC10.items)
    ∧ (paneC10.openItem 5 true itemC10New).1.items.length = 2
    ∧ paneC10.items.length = 1
    ∧ (paneC10.openItem 5 true itemC10New).2 = itemC10New :=
  ⟨⟨by decide, by decide⟩, by decide, by decide, by decide⟩

/-- C10 amended: the reopen path reuses an already-open item exactly when
some open item has a project path and its `project_entry_ids` equal exactly
`[entry]` (the singleton slice comparison of the source); the first such item
is activated and the pane's item count is unchanged, with the builder's item
not inserted.  When no open item matches in that exact sense — including when
the entry is open only as part of a composite item — the built item is added
instead. -/
theorem open_item_reuses_exact_singleton_match (p : Pane) (eid : EntryId) (f : Bool)
    (b : Item) :
    (∀ ix it, p.existingItemForEntry eid = some (ix, it) →
        p.openItem eid f b = (p.activateItem ix true f true, it)
        ∧ (p.openItem eid f b).1.items.length = p.items.length
        ∧ p.items[ix]? = some it
        ∧ it.projectPath.isSome = true ∧ it.entryIds = [eid])
    ∧ ((∀ it ∈ p.items, ¬(it.projectPath.isSome = true ∧ it.entryIds = [eid])) →
        p.openItem eid f b = (p.addItem b true f, b)) := by
  constructor
  · intro ix it hfind
    have hpred := List.find?_some hfind
    have hmem := List.mem_of_find?_eq_some hfind
    have hget : p.items[ix]? = some it := by
      have := List.mem_enum_iff_getElem?.mp hmem
      simpa using this
    simp only [Bool.and_eq_true, beq_iff_eq] at hpred
    refine ⟨?_, ?_, hget, hpred.1, hpred.2⟩
    · unfold Pane.openItem
      rw [hfind]
    · unfold Pane.openItem
      rw [hfind]
      exact activateItem_items_length p ix true f true
  · intro hnone
    have hfind : p.existingItemForEntry eid = none := by
      unfold Pane.existingItemForEntry
      rw [List.find?_eq_none]
      intro e he
      have hmeme : e.2 ∈ p.items :=
        List.getElem?_mem (List.mem_enum_iff_getElem?.mp he)
      have hni := hnone e.2 hmeme
      simp only [Bool.and_eq_true, beq_iff_eq]
      exact fun hc => hni ⟨hc.1, hc.2⟩
    unfold Pane.openItem
    rw [hfind]

def itemC10S : Item :=
  { blankItem with id := 3, entryIds := [5], projectPath := some 0 }

def paneC10S : Pane :=
  { items := [itemC10S], activeItemIndex := 0, navHistory := initialHistory,
    autoscroll := false }

/-- Witness for the amended C10: a pane holding one singleton item backed by
entry 5 reuses it. -/
theorem open_item_reuses_exact_singleton_match_witness :
    paneC10S.existingItemForEntry 5 = some (0, itemC10S)
    ∧ (paneC10S.openItem 5 true itemC10New
        = (paneC10S.activateItem 0 true true true, itemC10S)
      ∧ (paneC10S.openItem 5 true itemC10New).1.items.length = paneC10S.items.length
      ∧ paneC10S.items[0]? = some itemC10S
      ∧ itemC10S.projectPath.isSome = true ∧ itemC10S.entryIds = [5]) :=
  ⟨by decide,
   (open_item_reuses_exact_singleton_match paneC10S 5 true itemC10New).1 0 itemC10S
     (by decide)⟩

def paneIds (p : Pane) : List ItemId := p.items.map Item.id

theorem activatePrevItem_items (p : Pane) : p.activatePrevItem.items = p.items := by
  unfold Pane.activatePrevItem
  exact activateItem_items_of_not_move p _ true true

theorem activateNextItem_items (p : Pane) : p.activateNextItem.items = p.items := by
  unfold Pane.activateNextItem
  exact activateItem_items_of_not_move p _ true true

theorem saveDirtyBody_pane (p : Pane) (it : Item) (ans : SaveAnswers) (pr : Bool) :
    (saveDirtyBody p it ans pr).pane = p := by
  unfold saveDirtyBody
  split
  · rfl
  · split
    · split <;> rfl
    · rfl

/-- `save_item` only ever activates (without reordering), so the item list is
untouched. -/
theorem saveItem_pane_items (autosave : Bool) (p : Pane) (itemIx : Nat) (it : Item)
    (sp : Bool) (ans : SaveAnswers) :
    (saveItem autosave p itemIx it sp ans).pane.items = p.items := by
  unfold saveItem
  split
  · split <;> simp [activateItem_items_of_not_move]
  · split
    · split <;> (dsimp only) <;> split <;>
        simp [saveDirtyBody_pane, activateItem_items_of_not_move]
    · rfl

/-- The item list after the removal step: erase the removed item's position
(the pre-removal activations do not reorder). -/
theorem removeClosedItem_items (p : Pane) (it : Item) :
    (removeClosedItem p it).items =
      (match p.items.findIdx? (fun i => i.id == it.id) with
      | none => p.items
      | some ix => p.items.eraseIdx ix) := by
  unfold removeClosedItem
  split
  case h_1 => rfl
  case h_2 ix hfind =>
    dsimp only
    split
    · split <;> (try split) <;>
        simp [activatePrevItem_items, activateNextItem_items]
    · rfl

theorem removeClosedItem_of_absent (p : Pane) (it : Item)
    (hfind : p.items.findIdx? (fun i => i.id == it.id) = none) :
    removeClosedItem p it = p := by
  unfold removeClosedItem
  rw [hfind]

/-- Effect of the removal step on the multiset of item ids, under
duplicate-free ids: the closed item's id disappears, every other id is
untouched, and the ids stay duplicate-free. -/
theorem removeClosedItem_ids_spec (p : Pane) (it : Item)
    (hnd : (paneIds p).Nodup) :
    (paneIds (removeClosedItem p it)).Nodup
    ∧ (it.id ∈ paneIds p → it.id ∉ paneIds (removeClosedItem p it))
    ∧ (∀ x, x ≠ it.id → (x ∈ paneIds (removeClosedItem p it) ↔ x ∈ paneIds p)) := by
  cases hfind : p.items.findIdx? (fun i => i.id == it.id) with
  | none =>
    rw [removeClosedItem_of_absent p it hfind]
    have habs : it.id ∉ paneIds p := by
      intro hmem
      obtain ⟨y, hy, hyid⟩ := List.mem_map.mp hmem
      have := List.findIdx?_eq_none_iff.mp hfind y hy
      simp [hyid] at this
    exact ⟨hnd, fun h => absurd h habs, fun x _ => Iff.rfl⟩
  | some ix =>
    obtain ⟨hlt, hpred, _⟩ := List.findIdx?_eq_some_iff_getElem.mp hfind
    have hgid : (p.items.get ⟨ix, hlt⟩).id = it.id := by
      simpa using hpred
    have hperm0 : p.items.Perm (p.items.get ⟨ix, hlt⟩ :: p.items.eraseIdx ix) :=
      perm_cons_eraseIdx p.items ix hlt
    have hids : (removeClosedItem p it).items = p.items.eraseIdx ix := by
      rw [removeClosedItem_items, hfind]
    have hperm : (paneIds p).Perm (it.id :: paneIds (removeClosedItem p it)) := by
      have := hperm0.map Item.id
      rw [List.map_cons, hgid] at this
      rw [paneIds, paneIds, hids]
      exact this
    have hnd2 : (it.id :: paneIds (removeClosedItem p it)).Nodup :=
      hperm.nodup_iff.mp hnd
    refine ⟨(List.nodup_cons.mp hnd2).2, fun _ => (List.nodup_cons.mp hnd2).1, fun x hx => ?_⟩
    constructor
    · intro hxm
      exact hperm.mem_iff.mpr (List.mem_cons_of_mem _ hxm)
    · intro hxm
      rcases List.mem_cons.mp (hperm.mem_iff.mp hxm) with h | h
      · exact absurd h hx
      · exact h

theorem anyInsert_cases (saved : List EntryId) :
    ∀ ids : List EntryId,
      ((anyInsert saved ids).2.1 = saved ∧ (anyInsert saved ids).2.2 = none
        ∧ (anyInsert saved ids).1 = false)
      ∨ (∃ x, x ∉ saved ∧ (anyInsert saved ids).2.1 = x :: saved
          ∧ (anyInsert saved ids).2.2 = some x ∧ (anyInsert saved ids).1 = true)
  | [] => Or.inl ⟨rfl, rfl, rfl⟩
  | id :: rest => by
    by_cases hmem : id ∈ saved
    · simpa only [anyInsert, if_pos hmem] using anyInsert_cases saved rest
    · right
      refine ⟨id, hmem, ?_, ?_, ?_⟩ <;> simp only [anyInsert, if_neg hmem]

theorem anyInsert_covered (saved : List EntryId) :
    ∀ ids : List EntryId, (∀ id ∈ ids, id ∈ saved) →
      anyInsert saved ids = (false, saved, none)
  | [], _ => rfl
  | id :: rest, h => by
    unfold anyInsert
    rw [if_pos (h id (List.mem_cons_self _ _))]
    exact anyInsert_covered saved rest (fun x hx => h x (List.mem_cons_of_mem _ hx))

/-- How one should-save decision changes the saved set: either nothing is
inserted, or exactly one id not seen before is inserted (and reported). -/
theorem shouldSaveStep_spec (w : Workspace) (batchIds : List ItemId) (item : Item)
    (saved : List EntryId) :
    ((shouldSaveStep w batchIds item saved).2.1 = saved
      ∧ (shouldSaveStep w batchIds item saved).2.2.1 = none)
    ∨ (∃ x, x ∉ saved
        ∧ (shouldSaveStep w batchIds item saved).2.1 = x :: saved
        ∧ (shouldSaveStep w batchIds item saved).2.2.1 = some x) := by
  unfold shouldSaveStep
  split
  · exact Or.inl ⟨rfl, rfl⟩
  · rcases anyInsert_cases saved
        (retainNotOpenElsewhere w.allItems batchIds item.entryIds) with
      ⟨h1, h2, _⟩ | ⟨x, hx, h1, h2, _⟩
    · exact Or.inl ⟨h1, h2⟩
    · exact Or.inr ⟨x, hx, h1, h2⟩

/-- A candidate whose retained entries are all already accounted for does not
need a save. -/
theorem shouldSaveStep_covered (w : Workspace) (batchIds : List ItemId) (item : Item)
    (saved : List EntryId) (hne : item.entryIds.isEmpty = false)
    (hcov : ∀ e ∈ retainNotOpenElsewhere w.allItems batchIds item.entryIds, e ∈ saved) :
    shouldSaveStep w batchIds item saved
      = (false, saved, none, retainNotOpenElsewhere w.allItems batchIds item.entryIds) := by
  unfold shouldSaveStep
  rw [if_neg (by simp [hne])]
  dsimp only
  rw [anyInsert_covered saved _ hcov]

/-- Core of C1: over a whole close run, an entry id `r` can be the newly
inserted id of at most one candidate, and once `r` is in the saved set no
later candidate can newly insert it. -/
theorem closeGo_count_newIns (autosave : Bool) (oracle : ItemId → SaveAnswers)
    (batchIds : List ItemId) (r : EntryId) :
    ∀ (cands : List Item) (w : Workspace) (saved : List EntryId),
      (r ∈ saved →
        ((closeItemsGo autosave oracle batchIds cands w saved).2.1.countP
          (fun c => c.newlyInserted == some r)) = 0)
      ∧ ((closeItemsGo autosave oracle batchIds cands w saved).2.1.countP
          (fun c => c.newlyInserted == some r)) ≤ 1 := by
  intro cands
  induction cands with
  | nil =>
    intro w saved
    simp [closeItemsGo]
  | cons item rest ih =>
    intro w saved
    simp only [closeItemsGo]
    cases hfind : w.pane.items.findIdx? (fun i => i.id == item.id) with
    | none =>
      dsimp only
      constructor
      · intro hr
        rw [List.countP_cons]
        simp only [show ((none : Option EntryId) == some r) = false by rfl]
        simpa using (ih w saved).1 hr
      · rw [List.countP_cons]
        simp only [show ((none : Option EntryId) == some r) = false by rfl]
        simpa using (ih w saved).2
    | some itemIx =>
      dsimp only
      rcases shouldSaveStep_spec w batchIds item saved with ⟨hs1, hs2⟩ | ⟨x, hx, hs1, hs2⟩
      · -- nothing newly inserted this iteration
        by_cases hb : (shouldSaveStep w batchIds item saved).1 = true
        · rw [if_pos hb]
          cases hsr : (saveItem autosave w.pane itemIx item true (oracle item.id)).result with
          | err =>
            dsimp only
            rw [hs2]
            constructor
            · intro hr
              simp
            · simp
          | cancel =>
            dsimp only
            rw [hs2]
            constructor
            · intro hr
              simp
            · simp
          | cont =>
            dsimp only
            rw [hs1, hs2, List.countP_cons]
            simp only [show ((none : Option EntryId) == some r) = false by rfl]
            constructor
            · intro hr
              simpa using (ih _ saved).1 hr
            · simpa using (ih _ saved).2
        · rw [if_neg hb]
          dsimp only
          rw [hs1, hs2, List.countP_cons]
          simp only [show ((none : Option EntryId) == some r) = false by rfl]
          constructor
          · intro hr
            simpa using (ih _ saved).1 hr
          · simpa using (ih _ saved).2
      · -- x was newly inserted (x not previously in the set)
        by_cases hb : (shouldSaveStep w batchIds item saved).1 = true
        · rw [if_pos hb]
          cases hsr : (saveItem autosave w.pane itemIx item true (oracle item.id)).result with
          | err =>
            dsimp only
            rw [hs2]
            constructor
            · intro hr
              have hxr : (some x == some r) = false := by
                have hne2 : x ≠ r := fun hEq => hx (hEq ▸ hr)
                simp [hne2]
              simp [hxr]
            · exact le_trans (List.countP_le_length _) (by simp)
          | cancel =>
            dsimp only
            rw [hs2]
            constructor
            · intro hr
              have hxr : (some x == some r) = false := by
                have hne2 : x ≠ r := fun hEq => hx (hEq ▸ hr)
                simp [hne2]
              simp [hxr]
            · exact le_trans (List.countP_le_length _) (by simp)
          | cont =>
            dsimp only
            rw [hs1, hs2, List.countP_cons]
            by_cases hxr : x = r
            · subst hxr
              constructor
              · intro hr
                exact absurd hr hx
              · rw [(ih _ _).1 (List.mem_cons_self _ _)]
                simp
            · have hxrb : (some x == some r) = false := by
                simp [hxr]
              rw [hxrb]
              simp only [Bool.false_eq_true, if_false, Nat.add_zero]
              constructor
              · intro hr
                exact (ih _ _).1 (List.mem_cons_of_mem _ hr)
              · exact (ih _ _).2
        · rw [if_neg hb]
          dsimp only
          rw [hs1, hs2, List.countP_cons]
          by_cases hxr : x = r
          · subst hxr
            constructor
            · intro hr
              exact absurd hr hx
            · rw [(ih _ _).1 (List.mem_cons_self _ _)]
              simp
          · have hxrb : (some x == some r) = false := by
              simp [hxr]
            rw [hxrb]
            simp only [Bool.false_eq_true, if_false, Nat.add_zero]
            constructor
            · intro hr
              exact (ih _ _).1 (List.mem_cons_of_mem _ hr)
            · exact (ih _ _).2

/-- Core of C1, second half: a present candidate with a non-empty entry set
whose retained entries are all already accounted for is closed without any
prompt (its iteration takes the no-save path and removes it). -/
theorem closeGo_covered_no_prompt (autosave : Bool) (oracle : ItemId → SaveAnswers)
    (batchIds : List ItemId) :
    ∀ (cands : List Item) (w : Workspace) (saved : List EntryId),
      ∀ c ∈ (closeItemsGo autosave oracle batchIds cands w saved).2.1,
        c.present = true → c.entryIds ≠ [] →
        (∀ e ∈ c.remaining, e ∈ c.savedBefore) →
        c.shouldSave = false ∧ c.prompted = false ∧ c.removed = true := by
  intro cands
  induction cands with
  | nil =>
    intro w saved c hc
    simp [closeItemsGo] at hc
  | cons item rest ih =>
    intro w saved c hc hpres hne hcov
    simp only [closeItemsGo] at hc
    cases hfind : w.pane.items.findIdx? (fun i => i.id == item.id) with
    | none =>
      rw [hfind] at hc
      dsimp only at hc
      rcases List.mem_cons.mp hc with hc | hc
      · subst hc
        simp at hpres
      · exact ih w saved c hc hpres hne hcov
    | some itemIx =>
      rw [hfind] at hc
      dsimp only at hc
      by_cases hb : (shouldSaveStep w batchIds item saved).1 = true
      · rw [if_pos hb] at hc
        -- In every arm the head log claims shouldSave: if the candidate is
        -- covered this contradicts the covered-no-save computation.
        have headAbsurd : ∀ (hne2 : item.entryIds ≠ [])
            (hcov2 : ∀ e ∈ (shouldSaveStep w batchIds item saved).2.2.2, e ∈ saved), False := by
          intro hne2 hcov2
          have hempty : item.entryIds.isEmpty = false := by
            cases hE : item.entryIds.isEmpty
            · rfl
            · exact absurd (List.isEmpty_iff.mp hE) hne2
          have hremeq : (shouldSaveStep w batchIds item saved).2.2.2
              = retainNotOpenElsewhere w.allItems batchIds item.entryIds := by
            unfold shouldSaveStep
            rw [if_neg (by simp [hempty])]
          have hfalse : (shouldSaveStep w batchIds item saved).1 = false := by
            rw [shouldSaveStep_covered w batchIds item saved hempty
              (by rw [← hremeq]; exact hcov2)]
          rw [hfalse] at hb
          exact Bool.noConfusion hb
        cases hsr : (saveItem autosave w.pane itemIx item true (oracle item.id)).result with
        | err =>
          rw [hsr] at hc
          dsimp only at hc
          rcases List.mem_cons.mp hc with hc | hc
          · subst hc
            exact absurd trivial (fun _ => headAbsurd hne hcov)
          · simp at hc
        | cancel =>
          rw [hsr] at hc
          dsimp only at hc
          rcases List.mem_cons.mp hc with hc | hc
          · subst hc
            exact absurd trivial (fun _ => headAbsurd hne hcov)
          · simp at hc
        | cont =>
          rw [hsr] at hc
          dsimp only at hc
          rcases List.mem_cons.mp hc with hc | hc
          · subst hc
            exact absurd trivial (fun _ => headAbsurd hne hcov)
          · exact ih _ _ c hc hpres hne hcov
      · rw [if_neg hb] at hc
        dsimp only at hc
        rcases List.mem_cons.mp hc with hc | hc
        · subst hc
          exact ⟨rfl, rfl, rfl⟩
        · exact ih _ _ c hc hpres hne hcov

theorem findIdx_of_id_mem (p : Pane) (id : ItemId) (hmem : id ∈ paneIds p) :
    ∃ ix, p.items.findIdx? (fun i => i.id == id) = some ix := by
  obtain ⟨y, hy, hyid⟩ := List.mem_map.mp hmem
  cases hf : p.items.findIdx? (fun i => i.id == id) with
  | some ix => exact ⟨ix, rfl⟩
  | none =>
    have := List.findIdx?_eq_none_iff.mp hf y hy
    simp [hyid] at this

/-- The facts about one close-loop run that C3 needs: pane ids stay
duplicate-free, at most one log per candidate, ids outside the batch are
untouched, candidates strictly before the last log are removed, candidates
at or past the log count are untouched, and the last candidate's fate is
whatever its log's `removed` flag says. -/
def closeRunFacts (cands : List Item) (w : Workspace)
    (out : Workspace × List CandLog × Option Bool) : Prop :=
  (paneIds out.1.pane).Nodup
  ∧ out.2.1.length ≤ cands.length
  ∧ (∀ x, x ∉ cands.map Item.id → (x ∈ paneIds out.1.pane ↔ x ∈ paneIds w.pane))
  ∧ (∀ j cj, cands[j]? = some cj →
      (j + 1 < out.2.1.length → cj.id ∉ paneIds out.1.pane)
      ∧ (out.2.1.length ≤ j → cj.id ∈ paneIds out.1.pane)
      ∧ (j + 1 = out.2.1.length →
          ∀ lg, out.2.1.getLast? = some lg →
            (lg.removed = true → cj.id ∉ paneIds out.1.pane)
            ∧ (lg.removed = false → cj.id ∈ paneIds out.1.pane)))

/-- Assembling run facts when the head candidate was removed and the run
continued. -/
theorem closeRunFacts_cons_removed (item : Item) (rest : List Item) (w w3 : Workspace)
    (outT : Workspace × List CandLog × Option Bool) (headLog : CandLog)
    (hrem : headLog.removed = true)
    (hfacts : closeRunFacts rest w3 outT)
    (hw3a : item.id ∉ paneIds w3.pane)
    (hw3b : ∀ x, x ≠ item.id → (x ∈ paneIds w3.pane ↔ x ∈ paneIds w.pane))
    (hrestids : item.id ∉ rest.map Item.id) :
    closeRunFacts (item :: rest) w (outT.1, headLog :: outT.2.1, outT.2.2) := by
  obtain ⟨hnd, hlen, hout, hjs⟩ := hfacts
  refine ⟨hnd, by simpa using Nat.succ_le_succ hlen, ?_, ?_⟩
  · intro x hx
    have hx1 : x ≠ item.id := fun hEq => hx (by simp [hEq])
    have hx2 : x ∉ rest.map Item.id := fun hm => hx (by simp [hm])
    exact (hout x hx2).trans (hw3b x hx1)
  · intro j cj hj
    cases j with
    | zero =>
      simp only [List.getElem?_cons_zero, Option.some.injEq] at hj
      subst hj
      have hnotin : item.id ∉ paneIds outT.1.pane := by
        intro hmm
        exact hw3a ((hout item.id hrestids).mp hmm)
      refine ⟨fun _ => hnotin, ?_, ?_⟩
      · intro hlen0
        simp at hlen0
      · intro hlast lg hlg
        have hnil : outT.2.1 = [] := by
          have hl0 : outT.2.1.length = 0 := by
            simp only [List.length_cons] at hlast
            omega
          exact List.length_eq_zero.mp hl0
        rw [hnil] at hlg
        simp only [List.getLast?_singleton, Option.some.injEq] at hlg
        subst hlg
        exact ⟨fun _ => hnotin, fun hf => absurd hrem (by simp [hf])⟩
    | succ j2 =>
      simp only [List.getElem?_cons_succ] at hj
      obtain ⟨h1, h2, h3⟩ := hjs j2 cj hj
      refine ⟨?_, ?_, ?_⟩
      · intro hlt
        exact h1 (by simp only [List.length_cons] at hlt; omega)
      · intro hge
        exact h2 (by simp only [List.length_cons] at hge; omega)
      · intro heq lg hlg
        have heq2 : j2 + 1 = outT.2.1.length := by
          simp only [List.length_cons] at heq
          omega
        obtain ⟨b, t, hbt⟩ : ∃ b t, outT.2.1 = b :: t := by
          cases hcase : outT.2.1 with
          | nil =>
            rw [hcase] at heq2
            simp at heq2
          | cons b t => exact ⟨b, t, rfl⟩
        have hlg2 : outT.2.1.getLast? = some lg := by
          rw [hbt]
          rw [hbt, List.getLast?_cons_cons] at hlg
          exact hlg
        exact h3 heq2 lg hlg2

/-- Assembling run facts when the head candidate's save was cancelled (or
errored): the loop stops with a single log whose `removed` flag is false and
the pane's ids unchanged. -/
theorem closeRunFacts_stop (item : Item) (rest : List Item) (w w2 : Workspace)
    (lg : CandLog) (res : Option Bool)
    (hpid : paneIds w2.pane = paneIds w.pane)
    (hlgrem : lg.removed = false)
    (hnd : (paneIds w.pane).Nodup)
    (hcands : ∀ c ∈ item :: rest, c.id ∈ paneIds w.pane) :
    closeRunFacts (item :: rest) w (w2, [lg], res) := by
  refine ⟨by rw [hpid]; exact hnd, by simp, fun x _ => by rw [hpid], ?_⟩
  intro j cj hj
  have hcjmem : cj.id ∈ paneIds w.pane := by
    have : cj ∈ item :: rest := List.getElem?_mem hj
    exact hcands cj this
  cases j with
  | zero =>
    refine ⟨fun h => by simp at h, fun h => by simp at h, ?_⟩
    intro _ lg2 hlg2
    simp only [List.getLast?_singleton, Option.some.injEq] at hlg2
    subst hlg2
    exact ⟨fun hr => absurd hlgrem (by simp [hr]), fun _ => by rw [hpid]; exact hcjmem⟩
  | succ j2 =>
    refine ⟨fun h => by simp only [List.length_cons, List.length_nil] at h; omega,
      fun _ => by rw [hpid]; exact hcjmem, ?_⟩
    intro h
    simp only [List.length_cons, List.length_nil] at h
    omega

/-- The close loop, run over distinct candidates that are all present:
every candidate before the stopping point is removed, every candidate at or
after it is untouched, and only candidates in the batch are ever removed. -/
theorem closeGo_run_spec (autosave : Bool) (oracle : ItemId → SaveAnswers)
    (batchIds : List ItemId) :
    ∀ (cands : List Item) (w : Workspace) (saved : List EntryId),
      (paneIds w.pane).Nodup →
      (∀ c ∈ cands, c.id ∈ paneIds w.pane) →
      ((cands.map Item.id).Nodup) →
      closeRunFacts cands w (closeItemsGo autosave oracle batchIds cands w saved) := by
  intro cands
  induction cands with
  | nil =>
    intro w saved hnd _ _
    simp only [closeItemsGo]
    exact ⟨hnd, Nat.le_refl _, fun x _ => Iff.rfl, fun j cj hj => by simp at hj⟩
  | cons item rest ih =>
    intro w saved hnd hcands hcnd
    simp only [closeItemsGo]
    have hitemin : item.id ∈ paneIds w.pane := hcands item (List.mem_cons_self _ _)
    obtain ⟨ix, hfind⟩ := findIdx_of_id_mem w.pane item.id hitemin
    rw [hfind]
    dsimp only
    have hrestids : item.id ∉ rest.map Item.id := by
      have hmap : ((item :: rest).map Item.id) = item.id :: rest.map Item.id := by simp
      rw [hmap] at hcnd
      exact (List.nodup_cons.mp hcnd).1
    have hcndrest : (rest.map Item.id).Nodup := by
      have hmap : ((item :: rest).map Item.id) = item.id :: rest.map Item.id := by simp
      rw [hmap] at hcnd
      exact (List.nodup_cons.mp hcnd).2
    by_cases hb : (shouldSaveStep w batchIds item saved).1 = true
    · rw [if_pos hb]
      have hpid2 : paneIds (saveItem autosave w.pane ix item true (oracle item.id)).pane
          = paneIds w.pane := by
        unfold paneIds
        rw [saveItem_pane_items]
      cases hsr : (saveItem autosave w.pane ix item true (oracle item.id)).result with
      | err =>
        dsimp only
        exact closeRunFacts_stop item rest w _ _ _ hpid2 rfl hnd hcands
      | cancel =>
        dsimp only
        exact closeRunFacts_stop item rest w _ _ _ hpid2 rfl hnd hcands
      | cont =>
        dsimp only
        have hnd2 : (paneIds (saveItem autosave w.pane ix item true (oracle item.id)).pane).Nodup := by
          rw [hpid2]
          exact hnd
        obtain ⟨hnd3, hrm3, heq3⟩ :=
          removeClosedItem_ids_spec (saveItem autosave w.pane ix item true (oracle item.id)).pane
            item hnd2
        have hw3a : item.id ∉ paneIds
            (removeClosedItem (saveItem autosave w.pane ix item true (oracle item.id)).pane item) :=
          hrm3 (by rw [hpid2]; exact hitemin)
        have hw3b : ∀ x, x ≠ item.id →
            (x ∈ paneIds (removeClosedItem
                (saveItem autosave w.pane ix item true (oracle item.id)).pane item)
              ↔ x ∈ paneIds w.pane) := by
          intro x hx
          rw [← hpid2]
          exact heq3 x hx
        have hcands3 : ∀ c ∈ rest, c.id ∈ paneIds
            (removeClosedItem (saveItem autosave w.pane ix item true (oracle item.id)).pane item) := by
          intro c hc
          have hcid : c.id ≠ item.id := by
            intro hEq
            exact hrestids (hEq ▸ List.mem_map_of_mem Item.id hc)
          exact (hw3b c.id hcid).mpr (hcands c (List.mem_cons_of_mem _ hc))
        have hfacts := ih
          ⟨removeClosedItem (saveItem autosave w.pane ix item true (oracle item.id)).pane item,
            w.otherItems⟩
          (shouldSaveStep w batchIds item saved).2.1 hnd3 hcands3 hcndrest
        exact closeRunFacts_cons_removed item rest w _ _ _ rfl hfacts hw3a hw3b hrestids
    · rw [if_neg hb]
      obtain ⟨hnd3, hrm3, heq3⟩ := removeClosedItem_ids_spec w.pane item hnd
      have hw3a : item.id ∉ paneIds (removeClosedItem w.pane item) := hrm3 hitemin
      have hcands3 : ∀ c ∈ rest, c.id ∈ paneIds (removeClosedItem w.pane item) := by
        intro c hc
        have hcid : c.id ≠ item.id := by
          intro hEq
          exact hrestids (hEq ▸ List.mem_map_of_mem Item.id hc)
        exact (heq3 c.id hcid).mpr (hcands c (List.mem_cons_of_mem _ hc))
      have hfacts := ih ⟨removeClosedItem w.pane item, w.otherItems⟩
        (shouldSaveStep w batchIds item saved).2.1 hnd3 hcands3 hcndrest
      exact closeRunFacts_cons_removed item rest w _ _ _ rfl hfacts hw3a heq3 hrestids

/-- A log whose save result is a cancel always has `removed = false`: the
loop broke before removing that candidate. -/
theorem closeGo_cancel_log (autosave : Bool) (oracle : ItemId → SaveAnswers)
    (batchIds : List ItemId) :
    ∀ (cands : List Item) (w : Workspace) (saved : List EntryId),
      ∀ c ∈ (closeItemsGo autosave oracle batchIds cands w saved).2.1,
        c.saveResult = some SaveRes.cancel → c.removed = false := by
  intro cands
  induction cands with
  | nil =>
    intro w saved c hc
    simp [closeItemsGo] at hc
  | cons item rest ih =>
    intro w saved c hc hres
    simp only [closeItemsGo] at hc
    cases hfind : w.pane.items.findIdx? (fun i => i.id == item.id) with
    | none =>
      rw [hfind] at hc
      dsimp only at hc
      rcases List.mem_cons.mp hc with hc | hc
      · subst hc
        rfl
      · exact ih w saved c hc hres
    | some itemIx =>
      rw [hfind] at hc
      dsimp only at hc
      by_cases hb : (shouldSaveStep w batchIds item saved).1 = true
      · rw [if_pos hb] at hc
        cases hsr : (saveItem autosave w.pane itemIx item true (oracle item.id)).result with
        | err =>
          rw [hsr] at hc
          dsimp only at hc
          rcases List.mem_cons.mp hc with hc | hc
          · subst hc
            rfl
          · simp at hc
        | cancel =>
          rw [hsr] at hc
          dsimp only at hc
          rcases List.mem_cons.mp hc with hc | hc
          · subst hc
            rfl
          · simp at hc
        | cont =>
          rw [hsr] at hc
          dsimp only at hc
          rcases List.mem_cons.mp hc with hc | hc
          · subst hc
            simp at hres
          · exact ih _ _ c hc hres
      · rw [if_neg hb] at hc
        dsimp only at hc
        rcases List.mem_cons.mp hc with hc | hc
        · subst hc
          simp at hres
        · exact ih _ _ c hc hres

/-- The exact circumstances under which `save_item` (with prompting
requested, as `close_items` always does) resolves to `Ok(false)`: a Cancel
(or dismissal) of the conflict prompt, a Cancel (or dismissal) of the
dirty prompt, or a cancelled save-as path dialog.  Overwrite, Discard, Save
and Don't Save never produce it. -/
def cancelOutcome (autosave : Bool) (it : Item) (ans : SaveAnswers) : Prop :=
  ((it.hasConflict && it.canSave) = true
    ∧ ans.conflict ≠ some 0 ∧ ans.conflict ≠ some 1)
  ∨ ((it.hasConflict && it.canSave) = false
    ∧ (it.isDirty && (it.canSave || it.isSingleton)) = true
    ∧ (autosave && canAutosaveItem it) = false
    ∧ ans.dirty ≠ some 0 ∧ ans.dirty ≠ some 1)
  ∨ ((it.hasConflict && it.canSave) = false
    ∧ (it.isDirty && (it.canSave || it.isSingleton)) = true
    ∧ it.canSave = false ∧ it.isSingleton = true
    ∧ ans.dirty = some 0 ∧ ans.saveAsPath = none)

instance (autosave : Bool) (it : Item) (ans : SaveAnswers) :
    Decidable (cancelOutcome autosave it ans) := by
  unfold cancelOutcome
  infer_instance

/-- `save_item` cancels the batch exactly on a cancel outcome. -/
theorem saveItem_cancel_iff (autosave : Bool) (p : Pane) (ixx : Nat) (it : Item)
    (ans : SaveAnswers) :
    (saveItem autosave p ixx it true ans).result = SaveRes.cancel
      ↔ cancelOutcome autosave it ans := by
  unfold saveItem cancelOutcome
  by_cases hc : (it.hasConflict && it.canSave) = true
  · rw [if_pos hc]
    cases hans : ans.conflict with
    | none => simp [hc, hans]
    | some n =>
      match n with
      | 0 => (simp [hc, hans]; split <;> simp)
      | 1 => (simp [hc, hans]; split <;> simp)
      | n + 2 => simp [hc, hans]
  · rw [if_neg hc]
    by_cases hd : (it.isDirty && (it.canSave || it.isSingleton)) = true
    · rw [if_pos hd]
      by_cases hwa : (autosave && canAutosaveItem it) = true
      · have hcs : it.canSave = true := by
          have h2 : canAutosaveItem it = true := (Bool.and_eq_true _ _ |>.mp hwa).2
          unfold canAutosaveItem at h2
          exact ((Bool.and_eq_true _ _).mp ((Bool.and_eq_true _ _).mp h2).1).2
        rw [if_neg (by simp [hwa])]
        unfold saveDirtyBody
        rw [if_pos hcs]
        constructor
        · intro hres
          dsimp only at hres
          split at hres <;> exact SaveRes.noConfusion hres
        · rintro (⟨h1, _⟩ | ⟨_, _, h3, _⟩ | ⟨_, _, h3, _⟩)
          · exact absurd h1 hc
          · exact absurd hwa (by simp [h3])
          · exact absurd hcs (by simp [h3])
      · rw [if_pos (by simp [hwa])]
        cases hans : ans.dirty with
        | none => simp [hc, hd, hans, hwa]
        | some n =>
          match n with
          | 0 =>
            unfold saveDirtyBody
            dsimp only
            by_cases hcs : it.canSave = true
            · rw [if_pos hcs]
              constructor
              · intro hres
                dsimp only at hres
                split at hres <;> exact SaveRes.noConfusion hres
              · rintro (⟨h1, _⟩ | ⟨_, _, _, h4, _⟩ | ⟨_, _, h3, _⟩)
                · exact absurd h1 hc
                · exact absurd rfl h4
                · exact absurd hcs (by simp [h3])
            · rw [if_neg hcs]
              by_cases hsg : it.isSingleton = true
              · rw [if_pos hsg]
                cases hpath : ans.saveAsPath with
                | none =>
                  constructor
                  · intro _
                    exact Or.inr (Or.inr ⟨by simpa using hc, hd, by simpa using hcs,
                      hsg, rfl, rfl⟩)
                  · intro _
                    rfl
                | some pathv =>
                  constructor
                  · intro hres
                    dsimp only at hres
                    split at hres <;> exact SaveRes.noConfusion hres
                  · rintro (⟨h1, _⟩ | ⟨_, _, _, h4, _⟩ | ⟨_, _, _, _, _, h6⟩)
                    · exact absurd h1 hc
                    · exact absurd rfl h4
                    · exact Option.noConfusion h6
              · rw [if_neg hsg]
                constructor
                · intro hres
                  exact SaveRes.noConfusion hres
                · rintro (⟨h1, _⟩ | ⟨_, _, _, h4, _⟩ | ⟨_, _, _, h4, _⟩)
                  · exact absurd h1 hc
                  · exact absurd rfl h4
                  · exact absurd h4 hsg
          | 1 =>
            constructor
            · intro hres
              exact SaveRes.noConfusion hres
            · rintro (⟨h1, _⟩ | ⟨_, _, _, _, h5⟩ | ⟨_, _, _, _, h5, _⟩)
              · exact absurd h1 hc
              · exact absurd rfl h5
              · simp at h5
          | n + 2 =>
            constructor
            · intro _
              exact Or.inr (Or.inl ⟨by simpa using hc, hd, by simpa using hwa,
                by simp, by simp⟩)
            · intro _
              rfl
    · rw [if_neg hd]
      constructor
      · intro hres
        exact SaveRes.noConfusion hres
      · rintro (⟨h1, _⟩ | ⟨_, h2, _⟩ | ⟨_, h2, _⟩)
        · exact absurd h1 hc
        · exact absurd h2 hd
        · exact absurd h2 hd

/-- C1: over a whole close batch in which a resource id `r` is not open in
any item outside the batch, a save prompt is blamed on `r` at most once:
at most one logged candidate both showed a prompt and was the one to newly
insert `r` into `saved_project_entry_ids`; and every present candidate with
a non-empty entry set whose retained entries are all already in the saved
set when its turn comes is closed with no prompt at all. -/
theorem close_batch_prompts_once_per_resource (autosave : Bool)
    (oracle : ItemId → SaveAnswers) (w : Workspace) (shouldClose : ItemId → Bool)
    (r : EntryId)
    (_houtside : ∀ it ∈ w.allItems,
        it.id ∉ (closeBatch w shouldClose).map Item.id → r ∉ it.entryIds) :
    ((closeItems autosave oracle w shouldClose).2.1.countP
        (fun c => c.prompted && (c.newlyInserted == some r))) ≤ 1
    ∧ ∀ c ∈ (closeItems autosave oracle w shouldClose).2.1,
        c.present = true → c.entryIds ≠ [] →
        (∀ e ∈ c.remaining, e ∈ c.savedBefore) →
        c.shouldSave = false ∧ c.prompted = false ∧ c.removed = true := by
  constructor
  · have hmono : ((closeItems autosave oracle w shouldClose).2.1.countP
        (fun c => c.prompted && (c.newlyInserted == some r)))
        ≤ ((closeItems autosave oracle w shouldClose).2.1.countP
          (fun c => c.newlyInserted == some r)) := by
      refine List.countP_mono_left ?_
      intro c _ hp
      simp only [Bool.and_eq_true] at hp
      exact hp.2
    exact le_trans hmono
      ((closeGo_count_newIns autosave oracle ((closeBatch w shouldClose).map Item.id) r
        (closeBatch w shouldClose) w []).2)
  · intro c hc
    exact closeGo_covered_no_prompt autosave oracle ((closeBatch w shouldClose).map Item.id)
      (closeBatch w shouldClose) w [] c hc

/-- Oracle answering Save to every dirty prompt, with all saves succeeding. -/
def oracleSaveAll : ItemId → SaveAnswers := fun _ =>
  { conflict := none, dirty := some 0, saveAsPath := none,
    saveOk := true, saveAsOk := true, reloadOk := true }

/-- Two dirty singleton items sharing project entry 5. -/
def itemC1a : Item :=
  { blankItem with id := 1, entryIds := [5], isDirty := true, projectPath := some 0 }

def itemC1b : Item :=
  { blankItem with id := 2, entryIds := [5], isDirty := true, projectPath := some 0 }

def paneC1 : Pane :=
  { items := [itemC1a, itemC1b], activeItemIndex := 0,
    navHistory := initialHistory, autoscroll := false }

def wC1 : Workspace :=
  { pane := paneC1, otherItems := [] }

/-- Placeholder log used only as a `getD` fallback when indexing logs. -/
def fallbackLog : CandLog :=
  { itemId := 0, present := false, entryIds := [], remaining := [], savedBefore := [],
    shouldSave := false, newlyInserted := none, prompted := false, saveResult := none,
    removed := false }

/-- The second iteration's log when closing both items of `wC1`. -/
def c1SecondLog : CandLog :=
  (((closeItems false oracleSaveAll wC1 (fun _ => true)).2.1)[1]?).getD fallbackLog

theorem close_batch_prompts_once_per_resource_witness :
    (∀ it ∈ wC1.allItems,
        it.id ∉ (closeBatch wC1 (fun _ => true)).map Item.id → (5 : EntryId) ∉ it.entryIds)
    ∧ ((closeItems false oracleSaveAll wC1 (fun _ => true)).2.1.countP
        (fun c => c.prompted && (c.newlyInserted == some 5))) ≤ 1
    ∧ (c1SecondLog ∈ (closeItems false oracleSaveAll wC1 (fun _ => true)).2.1
        ∧ c1SecondLog.present = true
        ∧ c1SecondLog.entryIds ≠ []
        ∧ (∀ e ∈ c1SecondLog.remaining, e ∈ c1SecondLog.savedBefore)
        ∧ c1SecondLog.shouldSave = false ∧ c1SecondLog.prompted = false
        ∧ c1SecondLog.removed = true) := by
  have hout : ∀ it ∈ wC1.allItems,
      it.id ∉ (closeBatch wC1 (fun _ => true)).map Item.id → (5 : EntryId) ∉ it.entryIds := by
    decide
  have main := close_batch_prompts_once_per_resource false oracleSaveAll wC1
    (fun _ => true) 5 hout
  have hm : c1SecondLog ∈ (closeItems false oracleSaveAll wC1 (fun _ => true)).2.1 := by
    decide
  have h2 := main.2 c1SecondLog hm (by decide) (by decide) (by decide)
  exact ⟨hout, main.1, hm, by decide, by decide, by decide, h2.1, h2.2.1, h2.2.2⟩

/-- C3: when the last logged iteration of a close run ended in a save-prompt
Cancel, the loop stopped there: every batch candidate processed before the
cancelled one is gone from the pane, while the cancelled candidate and every
candidate after it are still open.  Moreover Cancel is the only prompt
outcome that aborts: `save_item` resolves to the cancel result exactly on a
cancel outcome (conflict prompt not answered Overwrite/Discard, dirty prompt
not answered Save/Don't Save, or a dismissed save-as dialog); Save,
Don't Save, Overwrite and Discard all let the loop continue. -/
theorem close_cancel_aborts_batch (autosave : Bool) (oracle : ItemId → SaveAnswers)
    (w : Workspace) (shouldClose : ItemId → Bool)
    (hnd : (paneIds w.pane).Nodup)
    (lg : CandLog)
    (hlast : (closeItems autosave oracle w shouldClose).2.1.getLast? = some lg)
    (hcancel : lg.saveResult = some SaveRes.cancel) :
    (∀ j cj, (closeBatch w shouldClose)[j]? = some cj →
        (j + 1 < (closeItems autosave oracle w shouldClose).2.1.length →
          cj.id ∉ paneIds (closeItems autosave oracle w shouldClose).1.pane)
        ∧ ((closeItems autosave oracle w shouldClose).2.1.length ≤ j + 1 →
          cj.id ∈ paneIds (closeItems autosave oracle w shouldClose).1.pane))
    ∧ (∀ (auto2 : Bool) (p : Pane) (ixx : Nat) (it : Item) (ans : SaveAnswers),
        ((saveItem auto2 p ixx it true ans).result = SaveRes.cancel
          ↔ cancelOutcome auto2 it ans)) := by
  have hperm : List.Perm (closeBatch w shouldClose)
      (w.pane.items.filter (fun i => shouldClose i.id)) := by
    unfold closeBatch
    exact List.filter_append_perm (fun i : Item => i.isSingleton) _
  have hsub : (w.pane.items.filter (fun i => shouldClose i.id)).Sublist w.pane.items :=
    List.filter_sublist _
  have hnd2 : ((w.pane.items.filter (fun i => shouldClose i.id)).map Item.id).Nodup :=
    (hsub.map Item.id).nodup hnd
  have hbatchnd : ((closeBatch w shouldClose).map Item.id).Nodup :=
    ((hperm.map Item.id).nodup_iff).mpr hnd2
  have hcandin : ∀ c ∈ closeBatch w shouldClose, c.id ∈ paneIds w.pane := by
    intro c hc
    exact List.mem_map_of_mem Item.id (List.mem_of_mem_filter (hperm.mem_iff.mp hc))
  have hfacts := closeGo_run_spec autosave oracle ((closeBatch w shouldClose).map Item.id)
    (closeBatch w shouldClose) w [] hnd hcandin hbatchnd
  obtain ⟨_, _, _, hjs⟩ := hfacts
  have hlg_mem : lg ∈ (closeItems autosave oracle w shouldClose).2.1 :=
    List.mem_of_mem_getLast? hlast
  have hrem0 : lg.removed = false :=
    closeGo_cancel_log autosave oracle ((closeBatch w shouldClose).map Item.id)
      (closeBatch w shouldClose) w [] lg hlg_mem hcancel
  constructor
  · intro j cj hj
    obtain ⟨h1, h2, h3⟩ := hjs j cj hj
    refine ⟨h1, ?_⟩
    intro hge
    rcases Nat.lt_or_ge ((closeItems autosave oracle w shouldClose).2.1.length) (j + 1)
      with hlt | hge2
    · exact h2 (Nat.lt_succ_iff.mp hlt)
    · have hEq : j + 1 = (closeItems autosave oracle w shouldClose).2.1.length :=
        Nat.le_antisymm hge2 hge
      exact (h3 hEq lg hlast).2 hrem0
  · intro auto2 p ixx it ans
    exact saveItem_cancel_iff auto2 p ixx it ans

/-- Oracle that dismisses every dirty prompt (Cancel). -/
def oracleDismiss : ItemId → SaveAnswers := fun _ =>
  { conflict := none, dirty := none, saveAsPath := none,
    saveOk := true, saveAsOk := true, reloadOk := true }

/-- Three singleton items: a clean one, then two dirty ones. -/
def itemC3a : Item := { blankItem with id := 1 }

def itemC3b : Item := { blankItem with id := 2, isDirty := true }

def itemC3c : Item := { blankItem with id := 3, isDirty := true }

def paneC3 : Pane :=
  { items := [itemC3a, itemC3b, itemC3c], activeItemIndex := 0,
    navHistory := initialHistory, autoscroll := false }

def wC3 : Workspace :=
  { pane := paneC3, otherItems := [] }

/-- The last iteration's log when closing all of `wC3` against the
dismissing oracle: the dirty prompt for item 2 is cancelled. -/
def c3LastLog : CandLog :=
  ((closeItems false oracleDismiss wC3 (fun _ => true)).2.1.getLast?).getD fallbackLog

theorem close_cancel_aborts_batch_witness :
    (paneIds wC3.pane).Nodup
    ∧ (closeItems false oracleDismiss wC3 (fun _ => true)).2.1.getLast? = some c3LastLog
    ∧ c3LastLog.saveResult = some SaveRes.cancel
    ∧ ((1 : ItemId) ∉ paneIds (closeItems false oracleDismiss wC3 (fun _ => true)).1.pane)
    ∧ ((2 : ItemId) ∈ paneIds (closeItems false oracleDismiss wC3 (fun _ => true)).1.pane)
    ∧ ((3 : ItemId) ∈ paneIds (closeItems false oracleDismiss wC3 (fun _ => true)).1.pane) := by
  have main := close_cancel_aborts_batch false oracleDismiss wC3 (fun _ => true)
    (by decide) c3LastLog (by decide) (by decide)
  have h0 := main.1 0 itemC3a (by decide)
  have h1 := main.1 1 itemC3b (by decide)
  have h2 := main.1 2 itemC3c (by decide)
  exact ⟨by decide, by decide, by decide,
    h0.1 (by decide), h1.2 (by decide), h2.2 (by decide)⟩

/-- Two dirty singleton items used to compare a cancelled and a completed
close run of the same batch. -/
def itemC4a : Item := { blankItem with id := 1, isDirty := true }

def itemC4b : Item := { blankItem with id := 2, isDirty := true }

def paneC4 : Pane :=
  { items := [itemC4a, itemC4b], activeItemIndex := 0,
    navHistory := initialHistory, autoscroll := false }

def wC4 : Workspace :=
  { pane := paneC4, otherItems := [] }

/-- C4 — refuted (code bug): the result of `close_items` does NOT let a
caller distinguish a Cancel-aborted batch from a completed one.  Closing the
two dirty items of `wC4` against the dismissing oracle cancels at the first
candidate, before the last one is processed (the run's only — hence last —
log records a Cancel and both items are still open), while against the
save-everything oracle the batch runs to completion (the pane ends empty);
yet both runs return the same successful result `Ok(true)` — the source's
final `Ok(true)` after `break` (pane.rs line 724) ignores the abort. -/
theorem close_result_does_not_flag_cancel_abort :
    ((closeItems false oracleDismiss wC4 (fun _ => true)).2.1.getLast?.map
        CandLog.saveResult) = some (some SaveRes.cancel)
    ∧ (closeItems false oracleDismiss wC4 (fun _ => true)).2.1.length = 1
    ∧ (closeItems false oracleDismiss wC4 (fun _ => true)).1.pane.items.length = 2
    ∧ (closeItems false oracleSaveAll wC4 (fun _ => true)).1.pane.items.length = 0
    ∧ (closeItems false oracleDismiss wC4 (fun _ => true)).2.2
        = (closeItems false oracleSaveAll wC4 (fun _ => true)).2.2
    ∧ (closeItems false oracleDismiss wC4 (fun _ => true)).2.2 = some true := by
  exact ⟨by decide, by decide, by decide, by decide, by decide, by decide⟩

theorem tabOnePass_length (items : List Item) (details : List Nat) :
    (tabOnePass items details).length = details.length := by
  unfold tabOnePass
  simp

theorem tabKeys_getElem (items : List Item) (details : List Nat) (i : Nat)
    (a : Item) (d : Nat) (ha : items[i]? = some a) (hd : details[i]? = some d) :
    (tabKeys items details)[i]? = some (tabKey a d) := by
  unfold tabKeys
  rw [List.getElem?_map]
  have hz : (items.zip details)[i]? = some (a, d) := by
    rw [List.getElem?_zip_eq_some]
    exact ⟨ha, hd⟩
  rw [hz]
  rfl

/-- The pointwise form of one grouping pass: entry `i` becomes `d` or `d+1`
according to its key and the shared-key count. -/
theorem tabOnePass_getElem (items : List Item) (details : List Nat) (i : Nat) (d : Nat)
    (hd : details[i]? = some d) :
    (tabOnePass items details)[i]? = some (
      match (tabKeys items details)[i]? with
      | some (some key) =>
        if 2 ≤ (tabKeys items details).countP (fun k2 => k2 == some key) then d + 1 else d
      | _ => d) := by
  unfold tabOnePass
  dsimp only
  rw [List.getElem?_mapIdx, hd]
  rfl

/-- The grouping key depends on the item only through its tab path. -/
theorem tabKey_congr (a b : Item) (h : a.tabPath = b.tabPath) (d : Nat) :
    tabKey a d = tabKey b d := by
  unfold tabKey tabDescription
  rw [h]

/-- An item participates in a pass only while its detail is below its path
bound: a present grouping key forces `d < tabBound`. -/
theorem tabKey_lt_bound (a : Item) (d : Nat) (k : List String)
    (h : tabKey a d = some k) : d < tabBound a := by
  unfold tabKey tabDescription at h
  cases hp : a.tabPath with
  | none =>
    rw [hp] at h
    exact Option.noConfusion h
  | some comps =>
    rw [hp] at h
    dsimp only at h
    unfold tabBound
    rw [hp]
    by_cases hd0 : d = 0
    · subst hd0
      exact Nat.lt_of_lt_of_le Nat.one_pos (Nat.le_max_left 1 comps.length)
    · by_contra hge
      push_neg at hge
      have hlen : comps.length ≤ d := le_trans (Nat.le_max_right 1 comps.length) hge
      have hsame : comps.drop (comps.length - (d + 1)) = comps.drop (comps.length - d) := by
        have h1 : comps.length - (d + 1) = 0 := by omega
        have h2 : comps.length - d = 0 := by omega
        rw [h1, h2]
      rw [if_neg] at h
      · exact Option.noConfusion h
      · simp only [Bool.or_eq_true, beq_iff_eq, Bool.not_eq_true']
        push_neg
        refine ⟨hd0, ?_⟩
        simp only [Bool.not_eq_false, beq_iff_eq]
        rw [hsame]
        have hd1 : d - 1 + 1 = d := by omega
        rw [hd1]

theorem sum_le_of_pointwise (a : List Nat) :
    ∀ b : List Nat, a.length = b.length →
      (∀ (i x y : Nat), a[i]? = some x → b[i]? = some y → x ≤ y) →
      a.sum ≤ b.sum := by
  induction a with
  | nil =>
    intro b _ _
    simp
  | cons x a' ih =>
    intro b hlen hle
    cases b with
    | nil => simp at hlen
    | cons y b' =>
      simp only [List.sum_cons]
      have hxy : x ≤ y := hle 0 x y (by simp) (by simp)
      have htail : a'.sum ≤ b'.sum := by
        refine ih b' (by simpa using hlen) ?_
        intro i u v hu hv
        exact hle (i + 1) u v (by simpa using hu) (by simpa using hv)
      omega

theorem sum_lt_of_pointwise (a : List Nat) :
    ∀ b : List Nat, a.length = b.length →
      (∀ (i x y : Nat), a[i]? = some x → b[i]? = some y → x ≤ y) →
      (∃ (i x y : Nat), a[i]? = some x ∧ b[i]? = some y ∧ x < y) →
      a.sum < b.sum := by
  induction a with
  | nil =>
    intro b _ _ hex
    obtain ⟨i, x, y, hx, _, _⟩ := hex
    simp at hx
  | cons x a' ih =>
    intro b hlen hle hex
    cases b with
    | nil => simp at hlen
    | cons y b' =>
      simp only [List.sum_cons]
      have hxy : x ≤ y := hle 0 x y (by simp) (by simp)
      have htle : ∀ (i u v : Nat), a'[i]? = some u → b'[i]? = some v → u ≤ v := by
        intro i u v hu hv
        exact hle (i + 1) u v (by simpa using hu) (by simpa using hv)
      obtain ⟨i, u, v, hu, hv, huv⟩ := hex
      cases i with
      | zero =>
        have hx : x = u := by simpa using hu
        have hy : y = v := by simpa using hv
        have htail : a'.sum ≤ b'.sum := sum_le_of_pointwise a' b' (by simpa using hlen) htle
        omega
      | succ i' =>
        have htail : a'.sum < b'.sum := by
          refine ih b' (by simpa using hlen) htle ?_
          exact ⟨i', u, v, by simpa using hu, by simpa using hv, huv⟩
        omega

/-- A pass that changes something strictly decreases the remaining
headroom: the changed index moved from `d` to `d+1` with `d` still below
its bound. -/
theorem tabOnePass_measure_lt (items : List Item) (details : List Nat)
    (hlen : details.length = items.length)
    (hne : tabOnePass items details ≠ details) :
    tabMeasure items (tabOnePass items details) < tabMeasure items details := by
  have hplen : (tabOnePass items details).length = details.length :=
    tabOnePass_length items details
  have hdiff : ∃ i : Nat, (tabOnePass items details)[i]? ≠ details[i]? := by
    by_contra hall
    push_neg at hall
    exact hne (List.ext_getElem? hall)
  obtain ⟨i, hi⟩ := hdiff
  have hdi : ∃ d0, details[i]? = some d0 := by
    cases hd0 : details[i]? with
    | none =>
      exfalso
      apply hi
      rw [hd0, List.getElem?_eq_none_iff, hplen]
      exact List.getElem?_eq_none_iff.mp hd0
    | some d0 => exact ⟨d0, rfl⟩
  obtain ⟨d0, hd0⟩ := hdi
  have hilt : i < items.length := by
    rw [← hlen]
    exact List.getElem?_eq_some.mp hd0 |>.1
  have hai : ∃ a, items[i]? = some a := by
    cases hA : items[i]? with
    | none =>
      exfalso
      exact absurd (List.getElem?_eq_none_iff.mp hA) (by omega)
    | some a => exact ⟨a, rfl⟩
  obtain ⟨a, ha⟩ := hai
  have hpass := tabOnePass_getElem items details i d0 hd0
  have hkeysi : (tabKeys items details)[i]? = some (tabKey a d0) :=
    tabKeys_getElem items details i a d0 ha hd0
  rw [hkeysi] at hpass
  have hinc : (tabOnePass items details)[i]? = some (d0 + 1) ∧ d0 < tabBound a := by
    cases hk : tabKey a d0 with
    | none =>
      rw [hk] at hpass
      exact absurd (hpass.trans hd0.symm) hi
    | some key =>
      rw [hk] at hpass
      dsimp only at hpass
      by_cases hc : 2 ≤ (tabKeys items details).countP (fun k2 => k2 == some key)
      · rw [if_pos hc] at hpass
        exact ⟨hpass, tabKey_lt_bound a d0 key hk⟩
      · rw [if_neg hc] at hpass
        exact absurd (hpass.trans hd0.symm) hi
  unfold tabMeasure
  refine sum_lt_of_pointwise _ _ ?_ ?_ ?_
  · rw [List.length_zipWith, List.length_zipWith, hplen]
  · intro j x y hx hy
    rw [List.getElem?_zipWith] at hx hy
    cases hAj : items[j]? with
    | none =>
      rw [hAj] at hx
      exact Option.noConfusion hx
    | some aj =>
      rw [hAj] at hx hy
      cases hNj : (tabOnePass items details)[j]? with
      | none =>
        rw [hNj] at hx
        exact Option.noConfusion hx
      | some nj =>
        cases hDj : details[j]? with
        | none =>
          rw [hDj] at hy
          exact Option.noConfusion hy
        | some dj =>
          rw [hNj] at hx
          rw [hDj] at hy
          have hxv : x = tabBound aj - nj := by simpa using hx.symm
          have hyv : y = tabBound aj - dj := by simpa using hy.symm
          have hmono : dj ≤ nj := by
            have hp := tabOnePass_getElem items details j dj hDj
            rw [hNj] at hp
            cases hK : (tabKeys items details)[j]? with
            | none =>
              rw [hK] at hp
              have : nj = dj := by simpa using hp
              omega
            | some ko =>
              cases ko with
              | none =>
                rw [hK] at hp
                have : nj = dj := by simpa using hp
                omega
              | some key =>
                rw [hK] at hp
                dsimp only at hp
                split at hp
                · have : nj = dj + 1 := by simpa using hp
                  omega
                · have : nj = dj := by simpa using hp
                  omega
          subst hxv
          subst hyv
          exact Nat.sub_le_sub_left hmono (tabBound aj)
  · refine ⟨i, tabBound a - (d0 + 1), tabBound a - d0, ?_, ?_, ?_⟩
    · rw [List.getElem?_zipWith, ha, hinc.1]
    · rw [List.getElem?_zipWith, ha, hd0]
    · have := hinc.2
      omega

/-- Fuel adequacy: with fuel exceeding the remaining measure the fuelled
loop reaches a genuine fixed point of the pass, keeping one detail level
per item. -/
theorem tabDetailsAux_fixed (items : List Item) :
    ∀ (fuel : Nat) (details : List Nat), details.length = items.length →
      tabMeasure items details < fuel →
      tabOnePass items (tabDetailsAux items fuel details)
          = tabDetailsAux items fuel details
      ∧ (tabDetailsAux items fuel details).length = items.length := by
  intro fuel
  induction fuel with
  | zero =>
    intro details _ hm
    exact absurd hm (Nat.not_lt_zero _)
  | succ f ih =>
    intro details hlen hm
    simp only [tabDetailsAux]
    by_cases heq : (tabOnePass items details == details) = true
    · rw [if_pos heq]
      exact ⟨beq_iff_eq.mp heq, hlen⟩
    · rw [if_neg heq]
      have hne : tabOnePass items details ≠ details := by
        intro h
        exact heq (beq_iff_eq.mpr h)
      have hlt := tabOnePass_measure_lt items details hlen hne
      refine ih (tabOnePass items details) ?_ ?_
      · rw [tabOnePass_length]
        exact hlen
      · omega

/-- Two items with the same tab path get the same treatment in one pass. -/
theorem tabOnePass_tie (items : List Item) (details : List Nat) (i j : Nat) (a b : Item)
    (ha : items[i]? = some a) (hb : items[j]? = some b) (hpath : a.tabPath = b.tabPath)
    (h : details[i]? = details[j]?) :
    (tabOnePass items details)[i]? = (tabOnePass items details)[j]? := by
  cases hd : details[i]? with
  | none =>
    have hdj : details[j]? = none := by rw [← h, hd]
    have hi0 : (tabOnePass items details)[i]? = none := by
      rw [List.getElem?_eq_none_iff, tabOnePass_length]
      exact List.getElem?_eq_none_iff.mp hd
    have hj0 : (tabOnePass items details)[j]? = none := by
      rw [List.getElem?_eq_none_iff, tabOnePass_length]
      exact List.getElem?_eq_none_iff.mp hdj
    rw [hi0, hj0]
  | some d =>
    have hdj : details[j]? = some d := by rw [← h, hd]
    rw [tabOnePass_getElem items details i d hd,
        tabOnePass_getElem items details j d hdj,
        tabKeys_getElem items details i a d ha hd,
        tabKeys_getElem items details j b d hb hdj,
        tabKey_congr a b hpath d]

/-- Through the whole fuelled loop, equal-path items keep equal details. -/
theorem tabDetailsAux_tie (items : List Item) (i j : Nat) (a b : Item)
    (ha : items[i]? = some a) (hb : items[j]? = some b)
    (hpath : a.tabPath = b.tabPath) :
    ∀ (fuel : Nat) (details : List Nat), details[i]? = details[j]? →
      (tabDetailsAux items fuel details)[i]?
        = (tabDetailsAux items fuel details)[j]? := by
  intro fuel
  induction fuel with
  | zero =>
    intro details h
    simpa only [tabDetailsAux] using h
  | succ f ih =>
    intro details h
    simp only [tabDetailsAux]
    by_cases heq : (tabOnePass items details == details) = true
    · rw [if_pos heq]
      exact h
    · rw [if_neg heq]
      exact ih (tabOnePass items details)
        (tabOnePass_tie items details i j a b ha hb hpath h)

/-- C7: the tab-detail resolver reaches a genuine fixed point on every item
list: `tabDetails` is pass-stable (one more pass changes nothing, so the
`while !done` loop exits instead of incrementing forever) and assigns one
detail level per item; and any two items with the same tab path — hence
identical descriptions at every detail level, e.g. the same resource opened
twice — end at the same final detail level. -/
theorem tab_details_terminates_and_ties_share_level (items : List Item) :
    tabOnePass items (tabDetails items) = tabDetails items
    ∧ (tabDetails items).length = items.length
    ∧ (∀ (i j : Nat) (a b : Item), items[i]? = some a → items[j]? = some b →
        a.tabPath = b.tabPath →
        (tabDetails items)[i]? = (tabDetails items)[j]?) := by
  have hstartlen : (items.map (fun _ => (0 : Nat))).length = items.length := by simp
  have hfix := tabDetailsAux_fixed items
    (tabMeasure items (items.map (fun _ => (0 : Nat))) + 1)
    (items.map (fun _ => (0 : Nat))) hstartlen (Nat.lt_succ_self _)
  refine ⟨hfix.1, hfix.2, ?_⟩
  intro i j a b ha hb hpath
  have hstart : (items.map (fun _ => (0 : Nat)))[i]?
      = (items.map (fun _ => (0 : Nat)))[j]? := by
    rw [List.getElem?_map, List.getElem?_map, ha, hb]
    rfl
  exact tabDetailsAux_tie items i j a b ha hb hpath _ _ hstart

/-- Two distinct items opening the same two-component path. -/
def itemC7a : Item := { blankItem with id := 1, tabPath := some ["dir", "file"] }

def itemC7b : Item := { blankItem with id := 2, tabPath := some ["dir", "file"] }

theorem tab_details_terminates_and_ties_share_level_witness :
    ([itemC7a, itemC7b])[0]? = some itemC7a
    ∧ ([itemC7a, itemC7b])[1]? = some itemC7b
    ∧ itemC7a.tabPath = itemC7b.tabPath
    ∧ tabOnePass [itemC7a, itemC7b] (tabDetails [itemC7a, itemC7b])
        = tabDetails [itemC7a, itemC7b]
    ∧ (tabDetails [itemC7a, itemC7b])[0]? = (tabDetails [itemC7a, itemC7b])[1]?
    ∧ tabDetails [itemC7a, itemC7b] = [2, 2] := by
  have main := tab_details_terminates_and_ties_share_level [itemC7a, itemC7b]
  exact ⟨rfl, rfl, rfl, main.1,
    main.2.2 0 1 itemC7a itemC7b rfl rfl rfl, by decide⟩

end Zed
